/-
  Verification of the type inference core (types.rs, inference.rs,
  substitution.rs, resolution.rs) against its specification.

  The Rust source is shallowly embedded: each Rust function becomes a Lean
  function over explicit state; `panic!`/`unwrap`/`todo!`/`unreachable!`
  outcomes are modelled as a distinct `panic` result; loops and recursion
  through the symbol table that the source performs without a bound are
  modelled with an explicit fuel parameter, where exhaustion (`fuelOut`)
  for every fuel witnesses divergence of the source.

  The AST node shapes, `SymbolTable`, and `IdGenerator` live in modules of
  the repository that are not part of the provided sources (ast.rs,
  symbol_table.rs, auxiliary.rs); they are modelled from the spec (section 3,
  section 6) and from how inference.rs uses them.
-/
import Mathlib

namespace Tails

/-! ## Type term model (types.rs) -/

/-- Model of `BitWidth` from types.rs. -/
inductive BitWidth
  | w8
  | w16
  | w32
  | w64
  | w128
deriving DecidableEq, Repr

/-- Model of `PrimitiveType` from types.rs: `Integer(BitWidth, bool)`,
`Real`, `Bool`, `Char`, `CString`. -/
inductive PrimitiveType
  | integer (width : BitWidth) (signed : Bool)
  | real (width : BitWidth)
  | bool
  | char
  | cstring
deriving DecidableEq, Repr

/-- Model of `ObjectKind` from types.rs: `Open(SubstitutionId)` or
`Closed`.  Substitution ids are modelled as `Nat`. -/
inductive ObjectKind
  | open_ (substitutionId : Nat)
  | closed
deriving DecidableEq, Repr

/-- Model of `ArityMode` from types.rs. -/
inductive ArityMode
  | variadic (minimumRequiredParameters : Nat)
  | fixed
deriving DecidableEq, Repr

/-- Model of `ArityMode::is_variadic` from types.rs. -/
def ArityMode.isVariadic : ArityMode → Bool
  | .variadic _ => true
  | .fixed => false

/-- Model of `Type` from types.rs.  `Union(Rc<ast::Union>)` is modelled by the union
declaration's registry id (the spec, section 4.3, identifies unions by the
registry id of the underlying declaration).  `Stub(StubType)` carries
`path.link_id`, the only component of `ast::Path` that types.rs reads.
Object fields (a `BTreeMap`) are modelled as the key-ordered association
list the map iterates as. -/
inductive Ty
  | union (registryId : Nat)
  | range (a b : Nat)
  | primitive (p : PrimitiveType)
  | pointer (pointee : Ty)
  | opaquePtr
  | reference (pointee : Ty)
  | tuple (elements : List Ty)
  | object (fields : List (String × Ty)) (kind : ObjectKind)
  | stub (linkId : Nat)
  | signature (parameterTypes : List Ty) (returnType : Ty) (arityMode : ArityMode)
  | var (substitutionId : Nat) (debugName : String)
  | unit
deriving Repr

/-- Model of `Type::is_a_meta` from types.rs: stubs and type variables. -/
def Ty.isAMeta : Ty → Bool
  | .stub _ => true
  | .var _ _ => true
  | _ => false

/-- Model of `Type::is_same_type_variable_as` from types.rs. -/
def Ty.isSameTypeVariableAs : Ty → Nat → Bool
  | .var substitutionId _, id => substitutionId == id
  | _, _ => false

/-- Model of `Type::into_pointer_type` from types.rs. -/
def Ty.intoPointerType (t : Ty) : Ty := .pointer t

/-- Model of `Type::get_inner_types` from types.rs, as the list the returned iterator
yields.  `none` models the `todo!()` panic on the `Union` arm.  Signature
return types are excluded, exactly as in the source. -/
def Ty.getInnerTypes : Ty → Option (List Ty)
  | .pointer pointee => some [pointee]
  | .object fields _ => some (fields.map Prod.snd)
  | .tuple elements => some elements
  | .reference pointee => some [pointee]
  | .signature parameterTypes _ _ => some parameterTypes
  | .union _ => none
  | _ => some []

mutual
/-- The sequence of types yielded by `ImmediateSubtreeIterator::new(t)`
(types.rs): a pre-order walk that, at each yielded node, pushes that node's
`get_inner_types` before yielding it.  `none` models the panic that occurs
when `get_inner_types` is invoked on a `Union`.  Note this descends through
the whole structural subtree, not only the direct children. -/
def Ty.immediateSubtree : Ty → Option (List Ty)
  | .pointer pointee => Ty.subtreeOfChild pointee
  | .reference pointee => Ty.subtreeOfChild pointee
  | .tuple elements => Ty.subtreeOfChildren elements
  | .object fields _ => Ty.subtreeOfFields fields
  | .signature parameterTypes _ _ => Ty.subtreeOfChildren parameterTypes
  | .union _ => none
  | _ => some []
termination_by t => (sizeOf t, 0)

/-- One yielded child `c`: `get_inner_types c` is computed at yield time
(panicking on unions), then `c` is emitted followed by its own subtree. -/
def Ty.subtreeOfChild : Ty → Option (List Ty)
  | c => do
    let rest ← Ty.immediateSubtree c
    pure (c :: rest)
termination_by c => (sizeOf c, 1)

def Ty.subtreeOfChildren : List Ty → Option (List Ty)
  | [] => some []
  | c :: cs => do
    let head ← Ty.subtreeOfChild c
    let tail ← Ty.subtreeOfChildren cs
    pure (head ++ tail)
termination_by cs => (sizeOf cs, 0)

def Ty.subtreeOfFields : List (String × Ty) → Option (List Ty)
  | [] => some []
  | (_, c) :: fs => do
    let head ← Ty.subtreeOfChild c
    let tail ← Ty.subtreeOfFields fs
    pure (head ++ tail)
termination_by fs => (sizeOf fs, 0)
end

mutual
/-- The concreteness scan that `Type::is_immediate_subtree_concrete`
performs over the iterator with `all(|ty| !ty.is_a_meta())`: a yielded node
first has its `get_inner_types` computed (panicking on unions, modelled as
`none`), is then tested (`some false` on the first meta found,
short-circuiting), and otherwise the walk descends. -/
def Ty.scanNode : Ty → Option Bool
  | .union _ => none
  | .stub _ => some false
  | .var _ _ => some false
  | .pointer pointee => Ty.scanNode pointee
  | .reference pointee => Ty.scanNode pointee
  | .tuple elements => Ty.scanChildren elements
  | .object fields _ => Ty.scanFields fields
  | .signature parameterTypes _ _ => Ty.scanChildren parameterTypes
  | _ => some true

def Ty.scanChildren : List Ty → Option Bool
  | [] => some true
  | c :: cs =>
    match Ty.scanNode c with
    | none => none
    | some false => some false
    | some true => Ty.scanChildren cs

def Ty.scanFields : List (String × Ty) → Option Bool
  | [] => some true
  | (_, c) :: fs =>
    match Ty.scanNode c with
    | none => none
    | some false => some false
    | some true => Ty.scanFields fs
end

/-- Model of `Type::is_immediate_subtree_concrete` from types.rs:
`!self.is_a_meta() && iter().all(|ty| !ty.is_a_meta())`.  The `&&`
short-circuits, so a meta root never constructs the iterator; a `Union`
root (or a `Union` yielded before any meta) panics (`none`). -/
def Ty.isImmediateSubtreeConcrete (t : Ty) : Option Bool :=
  if t.isAMeta then some false
  else
    match t with
    | .union _ => none
    | .pointer pointee => Ty.scanNode pointee
    | .reference pointee => Ty.scanNode pointee
    | .tuple elements => Ty.scanChildren elements
    | .object fields _ => Ty.scanFields fields
    | .signature parameterTypes _ _ => Ty.scanChildren parameterTypes
    | _ => some true

/-! ## AST node shapes and the symbol table

Modelled from the spec: ast.rs and symbol_table.rs are not among the
provided sources.  The shapes below follow spec section 3, section 6 and
the field accesses inference.rs performs (`path.link_id`, `type_id`,
`type_hint`, `signature.parameters`, `signature.return_type_hint`,
`signature.return_type_id`, `signature.is_variadic`, call-site
`callee_type_id` and argument `type_id`).  Only the node kinds reachable
from the claims are included. -/

/-- Modelled from the spec: `ast::LiteralKind` as used by
`impl Infer for ast::Literal` (inference.rs): booleans, strings, chars,
nullptr with an optional type hint, and numbers with a bit width, a
real/integer flag, and an optional type hint. -/
inductive LiteralKind
  | bool (value : Bool)
  | string (value : String)
  | char (value : Char)
  | nullptr (typeHint : Option Ty)
  | number (bitWidth : BitWidth) (isReal : Bool) (typeHint : Option Ty)

/-- Modelled from the spec: a literal node with its pre-assigned type id. -/
structure Literal where
  kind : LiteralKind
  typeId : Nat

/-- Modelled from the spec: `ast::Parameter` with the optional explicit
type hint and the node's type id. -/
structure Parameter where
  typeHint : Option Ty
  typeId : Nat

/-- Modelled from the spec: `ast::Signature` as used by
`create_signature_type` and `impl Infer for ast::ForeignFunction`. -/
structure AstSignature where
  parameters : List Parameter
  returnTypeHint : Option Ty
  returnTypeId : Nat
  isVariadic : Bool

mutual
/-- Modelled from the spec: the expression sum, restricted to the node
kinds the claims touch.  Dispatch over the variants mirrors
`impl Infer for ast::Expr`. -/
inductive Expr
  | literal (l : Literal)
  | reference (r : Reference)
  | callSite (c : CallSite)
  | objectAccess (o : ObjectAccess)
  | unionInstance (u : UnionInstance)

/-- Modelled from the spec: a name use carrying `path.link_id` and the
node's type id. -/
inductive Reference
  | mk (linkId : Nat) (typeId : Nat)

/-- Modelled from the spec: a call site.  `calleeLinkId` is the link that
`CallSite::strip_callee` follows through the symbol table to reach the
callable. -/
inductive CallSite
  | mk (calleeLinkId : Nat) (calleeExpr : Expr) (arguments : List CallSiteArg)
      (typeId : Nat) (calleeTypeId : Nat)

/-- Modelled from the spec: one call-site argument with its own type id. -/
inductive CallSiteArg
  | mk (value : Expr) (typeId : Nat)

/-- Modelled from the spec: an object member access `base.field`. -/
inductive ObjectAccess
  | mk (object : Expr) (fieldName : String) (typeId : Nat) (baseExprTypeId : Nat)

/-- Modelled from the spec: a union variant instance, carrying the link to
its variant declaration and the payload value. -/
inductive UnionInstance
  | mk (linkId : Nat) (value : UnionInstanceValue)

/-- Modelled from the spec: `ast::UnionInstanceValue` with its `Value`,
`String` and `Singleton` payload shapes, as matched in
`impl Infer for ast::UnionInstance`. -/
inductive UnionInstanceValue
  | value (e : Expr)
  | string (s : String)
  | singleton
end

def Reference.linkId : Reference → Nat
  | .mk l _ => l

def Reference.typeId : Reference → Nat
  | .mk _ t => t

def CallSite.calleeLinkId : CallSite → Nat
  | .mk l _ _ _ _ => l

def CallSite.calleeExpr : CallSite → Expr
  | .mk _ e _ _ _ => e

def CallSite.arguments : CallSite → List CallSiteArg
  | .mk _ _ a _ _ => a

def CallSite.typeId : CallSite → Nat
  | .mk _ _ _ t _ => t

def CallSite.calleeTypeId : CallSite → Nat
  | .mk _ _ _ _ t => t

def CallSiteArg.value : CallSiteArg → Expr
  | .mk v _ => v

def CallSiteArg.typeId : CallSiteArg → Nat
  | .mk _ t => t

def ObjectAccess.object : ObjectAccess → Expr
  | .mk o _ _ _ => o

def ObjectAccess.fieldName : ObjectAccess → String
  | .mk _ f _ _ => f

def ObjectAccess.typeId : ObjectAccess → Nat
  | .mk _ _ t _ => t

def ObjectAccess.baseExprTypeId : ObjectAccess → Nat
  | .mk _ _ _ b => b

def UnionInstance.linkId : UnionInstance → Nat
  | .mk l _ => l

def UnionInstance.value : UnionInstance → UnionInstanceValue
  | .mk _ v => v

/-- Modelled from the spec: a function item (signature, pre-assigned type
id, body expression). -/
structure FunctionNode where
  signature : AstSignature
  typeId : Nat
  body : Expr

/-- Modelled from the spec: a foreign function item. -/
structure ForeignFunctionNode where
  signature : AstSignature
  typeId : Nat

/-- Modelled from the spec: the item sum, restricted to the kinds the
claims touch.  Dispatch mirrors `impl Infer for ast::Item`. -/
inductive Item
  | function (f : FunctionNode)
  | foreignFunction (ff : ForeignFunctionNode)
  | parameter (p : Parameter)

/-- Modelled from the spec (section 6): `RegistryItem` as consumed by
`SymbolTable::follow_link`.  `typeDef` carries the declaration body used
by stub stripping; `union` is identified by registry id; `item` wraps the
registry items `into_item` converts to an AST item; `nonItem` stands for
the registry entries `into_item` rejects (the walker's
`"target is not an item"` error path). -/
inductive RegistryItem
  | union (registryId : Nat)
  | typeDef (body : Ty)
  | item (i : Item)
  | nonItem

/-- Modelled from the spec: `into_item` on a followed registry item. -/
def RegistryItem.intoItem : RegistryItem → Option Item
  | .item i => some i
  | _ => none

/-- Association-list lookup used for all the environments and tables
(first match wins, which gives map-insert overwrite semantics to
cons-based insertion). -/
def lookupAssoc {α : Type} : List (Nat × α) → Nat → Option α
  | [], _ => none
  | (k, v) :: rest, key => if k = key then some v else lookupAssoc rest key

def containsKey {α : Type} (l : List (Nat × α)) (key : Nat) : Bool :=
  (lookupAssoc l key).isSome

/-- Modelled from the spec (section 6): the symbol table, a registry of
declared items plus a link table.  `follow_link` and `registry` are the
two read-only operations the core consumes. -/
structure SymbolTable where
  links : List (Nat × RegistryItem)
  registry : List (Nat × RegistryItem)

/-- Modelled from the spec: `SymbolTable::follow_link`. -/
def SymbolTable.followLink (st : SymbolTable) (linkId : Nat) : Option RegistryItem :=
  lookupAssoc st.links linkId

/-! ## Stub stripping (types.rs) -/

/-- Outcome of `StubType::strip_all_stub_layers`: `ok` is `Ok(Type)`,
`errMissing` is `Err(TypeStripError::SymbolTableMissingEntry)`, `panic`
models the `todo!()` on a `Union` target and the `unreachable!` on any
other non-`TypeDef` target, and `fuelOut` marks that the source's
unbounded `loop` has not returned within the given fuel (it holds for
every fuel exactly when the source loops forever). -/
inductive StripRes
  | ok (t : Ty)
  | errMissing
  | panic
  | fuelOut
deriving Repr

/-- Model of `StubType::strip_all_stub_layers` from types.rs: follow the
stub's link; a dangling link is `SymbolTableMissingEntry`; a `Union`
target hits `todo!()`; any other non-`TypeDef` target hits
`unreachable!`; a `TypeDef` body that is itself a stub re-enters the
loop, any other body is returned.  The source's `loop` has no cycle
bound, which the fuel parameter makes observable. -/
def stripAllStubLayers (st : SymbolTable) : Nat → Nat → StripRes
  | 0, _ => .fuelOut
  | fuel + 1, linkId =>
    match st.followLink linkId with
    | none => .errMissing
    | some (.union _) => .panic
    | some (.typeDef body) =>
      match body with
      | .stub nextLink => stripAllStubLayers st fuel nextLink
      | t => .ok t
    | some _ => .panic

/-- Model of `Type::try_strip_all_stub_layers` from types.rs: strip only
when the top level is a stub. -/
def tryStripAllStubLayers (st : SymbolTable) (fuel : Nat) : Ty → StripRes
  | .stub linkId => stripAllStubLayers st fuel linkId
  | t => .ok t

/-! ## The inference walker (inference.rs) -/

/-- Model of `Constraint` from inference.rs. -/
inductive Constraint
  | equality (a b : Ty)

/-- Outcome of a walker step.  `panic` models every `unwrap`, `expect`,
`todo!` and `unreachable!` in inference.rs except the three `assert!`
statements (two in `InferenceContext::extend`, one in
`create_type_variable`), which are modelled separately as `assertFail`
so that claims about those assertions are statable.  `fuelOut` marks
that the walk did not finish within the given fuel. -/
inductive WRes (α : Type)
  | ok (a : α)
  | panic
  | assertFail
  | fuelOut

def WRes.bind {α β : Type} : WRes α → (α → WRes β) → WRes β
  | .ok a, f => f a
  | .panic, _ => .panic
  | .assertFail, _ => .assertFail
  | .fuelOut, _ => .fuelOut

instance : Monad WRes where
  pure := WRes.ok
  bind := WRes.bind

/-- Model of the mutable state of `InferenceContext` (inference.rs): the
constraint list, the substitution environment, the type environment, and
the `IdGenerator` counter (auxiliary.rs is not among the sources; per the
spec, section 3, substitution ids are monotonically generated from a
shared counter, so `next_substitution_id` returns the counter and
increments it).  The read-only symbol table borrow is passed separately.
The two hash maps are modelled as cons-lists whose first match wins. -/
structure Ctx where
  constraints : List Constraint
  substEnv : List (Nat × Ty)
  typeEnv : List (Nat × Ty)
  counter : Nat

/-- Model of `InferenceResultData` from inference.rs. -/
structure Data where
  constraints : List Constraint
  substEnv : List (Nat × Ty)
  typeEnv : List (Nat × Ty)
  ty : Ty
  idCount : Nat

/-- Model of `InferenceContext::inherit`: fresh empty context that only
inherits the id counter. -/
def Ctx.inherit (c : Ctx) : Ctx :=
  { constraints := [], substEnv := [], typeEnv := [], counter := c.counter }

/-- Model of `IdGenerator::next_substitution_id` threaded through the
context (used directly by `impl Infer for ast::ObjectAccess`). -/
def Ctx.nextSubstitutionId (c : Ctx) : Nat × Ctx :=
  (c.counter, { c with counter := c.counter + 1 })

/-- Model of `InferenceContext::create_type_variable`: mint a fresh id,
assert it is not already a substitution key, and register the self-map
`id ↦ Variable(id)`. -/
def Ctx.createTypeVariable (c : Ctx) (debugName : String) : WRes (Ty × Ctx) :=
  let substitutionId := c.counter
  let typeVariable := Ty.var substitutionId debugName
  if containsKey c.substEnv substitutionId then .assertFail
  else
    .ok (typeVariable,
      { c with
        substEnv := (substitutionId, typeVariable) :: c.substEnv,
        counter := substitutionId + 1 })

/-- Model of a `type_env.insert` call on the context. -/
def Ctx.insertTypeEnv (c : Ctx) (typeId : Nat) (ty : Ty) : Ctx :=
  { c with typeEnv := (typeId, ty) :: c.typeEnv }

/-- Model of `InferenceContext::add_constraint` (an
`add_other_constraint` push of an `Equality`). -/
def Ctx.addConstraint (c : Ctx) (a b : Ty) : Ctx :=
  { c with constraints := c.constraints ++ [.equality a b] }

/-- Model of the substitution-environment merge loop inside
`InferenceContext::extend`: every child entry is asserted to be new to
the accumulated parent environment, then inserted.  (The source iterates
a `HashMap`, whose keys are distinct; whether the assertion fires does
not depend on iteration order.) -/
def mergeSubst : List (Nat × Ty) → List (Nat × Ty) → WRes (List (Nat × Ty))
  | parentEnv, [] => .ok parentEnv
  | parentEnv, (k, v) :: rest =>
    if containsKey parentEnv k then .assertFail
    else mergeSubst ((k, v) :: parentEnv) rest

/-- Model of `InferenceContext::extend` from inference.rs: assert the
child's id count is not older than the parent's, adopt it, merge the
child's substitution environment (asserting no aliasing), insert the
child's type environment entries (child entries shadow the parent's),
and append the child's constraints. -/
def Ctx.extend (c : Ctx) (other : Data) : WRes Ctx :=
  if other.idCount < c.counter then .assertFail
  else do
    let merged ← mergeSubst c.substEnv other.substEnv
    .ok { constraints := c.constraints ++ other.constraints,
          substEnv := merged,
          typeEnv := other.typeEnv ++ c.typeEnv,
          counter := other.idCount }

/-- Model of `InferenceContext::finalize` from inference.rs: strip all
stub layers off the overall type (`unwrap`: a dangling link panics) and
package the context into an `InferenceResultData`. -/
def Ctx.finalize (st : SymbolTable) (fuel : Nat) (c : Ctx) (ty : Ty) : WRes Data :=
  match tryStripAllStubLayers st fuel ty with
  | .ok stripped =>
    .ok { constraints := c.constraints, substEnv := c.substEnv,
          typeEnv := c.typeEnv, ty := stripped, idCount := c.counter }
  | .errMissing => .panic
  | .panic => .panic
  | .fuelOut => .fuelOut

/-- Model of `ast::Callable` as used by `determine_arity_mode_for_callable`
and `CallSite::strip_callee` (modelled from the spec: ast.rs is not among
the sources; per the spec, section 4.2, a call-site callee is a function
or a foreign function). -/
inductive Callable
  | function (f : FunctionNode)
  | foreignFunction (ff : ForeignFunctionNode)

/-- Model of `InferenceContext::determine_arity_mode_for_callable` from
inference.rs: variadic with `minimum_required_parameters` equal to the
declared parameter count exactly for a variadic foreign function, fixed
for everything else. -/
def determineArityModeForCallable : Callable → ArityMode
  | .foreignFunction ff =>
    if ff.signature.isVariadic then
      .variadic ff.signature.parameters.length
    else .fixed
  | _ => .fixed

/-- Modelled from the spec: `Callable::get_signature_type`, the declared
signature of the callable (ast.rs is not among the sources). -/
def Callable.getSignature : Callable → AstSignature
  | .function f => f.signature
  | .foreignFunction ff => ff.signature

/-- Modelled from the spec: `CallSite::strip_callee` follows the
call-site's callee link through the symbol table to the callable item
(ast.rs is not among the sources; `None` is unwrapped into a panic at the
call site in `impl Infer for ast::CallSite`). -/
def stripCallee (st : SymbolTable) (cs : CallSite) : Option Callable :=
  match st.followLink cs.calleeLinkId with
  | some (.item (.function f)) => some (.function f)
  | some (.item (.foreignFunction ff)) => some (.foreignFunction ff)
  | _ => none

/-- Model of `InferenceContext::infer_parameter` from inference.rs: the
hint if present, else a fresh type variable; the result is written to the
parameter's type id. -/
def Ctx.inferParameter (c : Ctx) (p : Parameter) : WRes (Ty × Ctx) := do
  let (ty, c) ←
    match p.typeHint with
    | some hint => pure (hint, c)
    | none => c.createTypeVariable "parameter"
  .ok (ty, c.insertTypeEnv p.typeId ty)

/-- Model of the foreign-function parameter loop in
`impl Infer for ast::ForeignFunction`: each declared hint is `expect`ed
(a missing hint panics) and written to the parameter's type id. -/
def foreignParameterPass : Ctx → List Parameter → WRes (List Ty × Ctx)
  | c, [] => .ok ([], c)
  | c, p :: ps =>
    match p.typeHint with
    | none => .panic
    | some hint => do
      let c := c.insertTypeEnv p.typeId hint
      let (rest, c) ← foreignParameterPass c ps
      .ok (hint :: rest, c)

mutual
/-- Model of `impl Infer for ast::Expr` (inference.rs): dispatch to the
variant's rule through `parent.transient(..).unwrap()` — an inherited
child context runs the variant rule, merges it, and finalizes. -/
def inferExpr (st : SymbolTable) : Nat → Ctx → Expr → WRes Data
  | 0, _, _ => .fuelOut
  | fuel + 1, parent, e => do
    let child := parent.inherit
    let data ← inferExprVariant st fuel child e
    let child ← child.extend data
    child.finalize st fuel data.ty
termination_by fuel => (fuel, 0, 0)

/-- Model of `impl Infer for ast::Item` (inference.rs): dispatch through
`parent.transient(..).unwrap()`. -/
def inferItem (st : SymbolTable) : Nat → Ctx → Item → WRes Data
  | 0, _, _ => .fuelOut
  | fuel + 1, parent, i => do
    let child := parent.inherit
    let data ←
      match i with
      | .function f => inferFunction st fuel child f
      | .foreignFunction ff => inferForeignFunction st fuel child ff
      | .parameter p => inferParameterNode st fuel child p
    let child ← child.extend data
    child.finalize st fuel data.ty
termination_by fuel => (fuel, 0, 0)

/-- Model of `InferenceContext::visit` for expressions: infer with self as
parent, merge the produced data, return the type. -/
def visitExpr (st : SymbolTable) (fuel : Nat) (c : Ctx) (e : Expr) : WRes (Ty × Ctx) := do
  let data ← inferExpr st fuel c e
  let c ← c.extend data
  .ok (data.ty, c)
termination_by (fuel, 1, 0)

/-- Model of `InferenceContext::visit` for items. -/
def visitItem (st : SymbolTable) (fuel : Nat) (c : Ctx) (i : Item) : WRes (Ty × Ctx) := do
  let data ← inferItem st fuel c i
  let c ← c.extend data
  .ok (data.ty, c)
termination_by (fuel, 1, 0)

/-- Model of `InferenceContext::constrain`: infer the node, push
`Equality(expected, produced)` onto the self constraints, then merge. -/
def constrainExpr (st : SymbolTable) (fuel : Nat) (c : Ctx) (e : Expr) (expected : Ty) :
    WRes (Ty × Ctx) := do
  let data ← inferExpr st fuel c e
  let c := { c with constraints := c.constraints ++ [Constraint.equality expected data.ty] }
  let c ← c.extend data
  .ok (data.ty, c)
termination_by (fuel, 1, 0)

/-- Model of `impl Infer for ast::Parameter`: inherit, `infer_parameter`,
finalize. -/
def inferParameterNode (st : SymbolTable) (fuel : Nat) (parent : Ctx) (p : Parameter) :
    WRes Data := do
  let c := parent.inherit
  let (ty, c) ← c.inferParameter p
  c.finalize st fuel ty

/-- Model of `InferenceContext::visit_target_via_link`: follow the link
(`None` is a missing-entry error), convert to an item (failure is the
`"target is not an item"` error), and visit the item; both error paths
are unwrapped into panics by the callers in inference.rs. -/
def visitTargetViaLink (st : SymbolTable) (fuel : Nat) (c : Ctx) (linkId : Nat) :
    WRes (Ty × Ctx) :=
  match st.followLink linkId with
  | none => .panic
  | some target =>
    match target.intoItem with
    | none => .panic
    | some item => visitItem st fuel c item
termination_by (fuel, 2, 0)

/-- Model of the parameter walk inside `create_signature_type`: each
`ast::Parameter` is visited (via `impl Infer for ast::Parameter`) and its
type collected in order. -/
def visitParameters (st : SymbolTable) (fuel : Nat) :
    Ctx → List Parameter → WRes (List Ty × Ctx)
  | c, [] => .ok ([], c)
  | c, p :: ps => do
    let data ← inferParameterNode st fuel c p
    let c ← c.extend data
    let (rest, c) ← visitParameters st fuel c ps
    .ok (data.ty :: rest, c)
termination_by _ ps => (fuel, 3, ps.length)

/-- Model of the argument loop in `impl Infer for ast::CallSite`: visit
each argument value, write the argument's type id, collect the types in
order. -/
def visitArguments (st : SymbolTable) (fuel : Nat) :
    Ctx → List CallSiteArg → WRes (List Ty × Ctx)
  | c, [] => .ok ([], c)
  | c, a :: rest => do
    let (ty, c) ← visitExpr st fuel c a.value
    let c := c.insertTypeEnv a.typeId ty
    let (restTys, c) ← visitArguments st fuel c rest
    .ok (ty :: restTys, c)
termination_by _ args => (fuel, 3, args.length)

/-- Model of `InferenceContext::create_signature_type` from inference.rs:
the declared return hint is `expect`ed (missing panics), written to the
signature's return type id, the parameters are visited in order, and the
arity is `Fixed` (functions and closures are never variadic). -/
def createSignatureType (st : SymbolTable) (fuel : Nat) (c : Ctx) (sig : AstSignature) :
    WRes ((List Ty × Ty) × Ctx) :=
  match sig.returnTypeHint with
  | none => .panic
  | some returnType => do
    let c := c.insertTypeEnv sig.returnTypeId returnType
    let (parameterTypes, c) ← visitParameters st fuel c sig.parameters
    .ok ((parameterTypes, returnType), c)

/-- Model of `impl Infer for ast::Literal` from inference.rs. -/
def inferLiteral (st : SymbolTable) (fuel : Nat) (parent : Ctx) (l : Literal) :
    WRes Data := do
  let c := parent.inherit
  let (ty, c) ←
    match l.kind with
    | .bool _ => pure (Ty.primitive .bool, c)
    | .string _ => pure (Ty.primitive .cstring, c)
    | .char _ => pure (Ty.primitive .char, c)
    | .nullptr typeHint =>
      match typeHint with
      | some hint => pure (hint, c)
      | none => do
        let (v, c) ← c.createTypeVariable "nullptr"
        pure (v.intoPointerType, c)
    | .number bitWidth isReal typeHint =>
      match typeHint with
      | some hint => pure (hint, c)
      | none =>
        pure (Ty.primitive (if isReal then .real bitWidth else .integer bitWidth true), c)
  let c := c.insertTypeEnv l.typeId ty
  c.finalize st fuel ty

/-- Model of `impl Infer for ast::Reference` from inference.rs: the link
target is visited in place (`visit_target_via_link(..).unwrap()` — both
failure variants panic), the result written to the reference's type id.
No error is accumulated and no fresh type variable is created on
failure. -/
def inferReference (st : SymbolTable) (fuel : Nat) (parent : Ctx) (r : Reference) :
    WRes Data := do
  let c := parent.inherit
  let (ty, c) ← visitTargetViaLink st fuel c r.linkId
  let c := c.insertTypeEnv r.typeId ty
  c.finalize st fuel ty
termination_by (fuel, 5, 0)

/-- Model of `impl Infer for ast::CallSite` from inference.rs: strip the
callee (`unwrap`), determine the arity mode, `expect` the declared return
hint, strip its stub layers (`unwrap`), write the call's type id to the
stripped return, visit the arguments, synthesize the signature, write the
callee type id, constrain the callee expression, and finalize with the
return type. -/
def inferCallSite (st : SymbolTable) (fuel : Nat) (parent : Ctx) (cs : CallSite) :
    WRes Data := do
  let c := parent.inherit
  match stripCallee st cs with
  | none => .panic
  | some callee =>
    let calleeArityMode := determineArityModeForCallable callee
    let calleeSignature := callee.getSignature
    match calleeSignature.returnTypeHint with
    | none => .panic
    | some declaredReturn =>
      match tryStripAllStubLayers st fuel declaredReturn with
      | .errMissing => .panic
      | .panic => .panic
      | .fuelOut => .fuelOut
      | .ok calleeReturnType => do
        let c := c.insertTypeEnv cs.typeId calleeReturnType
        let (argumentTypes, c) ← visitArguments st fuel c cs.arguments
        let calleeType := Ty.signature argumentTypes calleeReturnType calleeArityMode
        let c := c.insertTypeEnv cs.calleeTypeId calleeType
        let (_, c) ← constrainExpr st fuel c cs.calleeExpr calleeType
        c.finalize st fuel calleeReturnType
termination_by (fuel, 5, 0)

/-- Model of `impl Infer for ast::ObjectAccess` from inference.rs: a
fresh member type variable, written to the node's type id; the base is
constrained to a one-field open object whose `Open` kind takes a raw
`next_substitution_id` — minted without being registered in the
substitution environment. -/
def inferObjectAccess (st : SymbolTable) (fuel : Nat) (parent : Ctx) (oa : ObjectAccess) :
    WRes Data := do
  let c := parent.inherit
  let (ty, c) ← c.createTypeVariable "object_access.member"
  let c := c.insertTypeEnv oa.typeId ty
  let fields := [(oa.fieldName, ty)]
  let (openId, c) := c.nextSubstitutionId
  let baseType := Ty.object fields (.open_ openId)
  let (_, c) ← constrainExpr st fuel c oa.object baseType
  let c := c.insertTypeEnv oa.baseExprTypeId baseType
  c.finalize st fuel ty
termination_by (fuel, 5, 0)

/-- Model of `impl Infer for ast::UnionInstance` from inference.rs: a
fresh value type variable, payload-shape dependent constraints, then the
source's unconditional `todo!()` — the rule always panics before the
union type is produced. -/
def inferUnionInstance (st : SymbolTable) (fuel : Nat) (parent : Ctx) (ui : UnionInstance) :
    WRes Data := do
  let c := parent.inherit
  let (valueType, c) ← c.createTypeVariable "union_instance.value"
  let _ ←
    match ui.value with
    | .value v => do
      let (_, c) ← constrainExpr st fuel c v valueType
      pure c
    | .string _ => pure (c.addConstraint valueType (Ty.primitive .cstring))
    | .singleton => pure (c.addConstraint valueType (Ty.primitive (.integer .w64 false)))
  (.panic : WRes Data)
termination_by (fuel, 5, 0)

/-- Model of `impl Infer for ast::Function` from inference.rs: build the
signature type, insert it at the function's type id before the body is
constrained, then constrain the body to the declared return type. -/
def inferFunction (st : SymbolTable) (fuel : Nat) (parent : Ctx) (f : FunctionNode) :
    WRes Data := do
  let c := parent.inherit
  let ((parameterTypes, returnType), c) ← createSignatureType st fuel c f.signature
  let signatureType := Ty.signature parameterTypes returnType .fixed
  let c := c.insertTypeEnv f.typeId signatureType
  let (_, c) ← constrainExpr st fuel c f.body returnType
  c.finalize st fuel signatureType
termination_by (fuel, 5, 0)

/-- Model of `impl Infer for ast::ForeignFunction` from inference.rs: all
parameter hints are `expect`ed and written, the return hint is
`expect`ed, the arity is variadic (with the declared parameter count as
minimum) iff the signature is flagged variadic, and the signature is
written to the node's type id. -/
def inferForeignFunction (st : SymbolTable) (fuel : Nat) (parent : Ctx)
    (ff : ForeignFunctionNode) : WRes Data := do
  let c := parent.inherit
  let (parameterTypes, c) ← foreignParameterPass c ff.signature.parameters
  match ff.signature.returnTypeHint with
  | none => .panic
  | some returnType =>
    let arityMode :=
      if ff.signature.isVariadic then
        ArityMode.variadic ff.signature.parameters.length
      else .fixed
    let ty := Ty.signature parameterTypes returnType arityMode
    let c := c.insertTypeEnv ff.typeId ty
    c.finalize st fuel ty

/-- Dispatch over expression variants, mirroring the match in
`impl Infer for ast::Expr`. -/
def inferExprVariant (st : SymbolTable) (fuel : Nat) (c : Ctx) : Expr → WRes Data
  | .literal l => inferLiteral st fuel c l
  | .reference r => inferReference st fuel c r
  | .callSite cs => inferCallSite st fuel c cs
  | .objectAccess oa => inferObjectAccess st fuel c oa
  | .unionInstance ui => inferUnionInstance st fuel c ui
termination_by (fuel, 6, 0)
end

/-! ## The unification substitution helper (substitution.rs) -/

/-- Outcome of `UnificationSubstitutionHelper::substitute` and its
helpers: `ok` is `Ok(..)`, `errMissing` is the propagated
`TypeStripError::SymbolTableMissingEntry`, `panic` models the `todo!()`
arms (nested polymorphic stub, union), the `assert_extract!` in
`substitute_object_type`, and the undocumented `.unwrap()` on the
substitution-environment lookup; `fuelOut` marks non-termination within
the given fuel. -/
inductive SRes (α : Type)
  | ok (a : α)
  | errMissing
  | panic
  | fuelOut

mutual
/-- Model of `UnificationSubstitutionHelper::substitute` from
substitution.rs.  The argument is first stripped of monomorphic stub
layers (errors propagate via `?`); the match is on the stripped type but
the catch-all arm returns the ORIGINAL argument (`Ok(ty.to_owned())`),
as in the source.  In the `Variable` arm the guard
`env.get(id).map_or(true, |t| !t.is_same_type_variable_as(id))` passes
when the id is absent, after which `.unwrap()` panics; a self-mapped id
fails the guard and falls to the catch-all. -/
def substitute (st : SymbolTable) (env : List (Nat × Ty)) : Nat → Ty → SRes Ty
  | 0, _ => .fuelOut
  | fuel + 1, ty =>
    match tryStripAllStubLayers st (fuel + 1) ty with
    | .errMissing => .errMissing
    | .panic => .panic
    | .fuelOut => .fuelOut
    | .ok stripped =>
      match stripped with
      | .pointer pointee =>
        match substitute st env fuel pointee with
        | .ok inner => .ok inner.intoPointerType
        | .errMissing => .errMissing
        | .panic => .panic
        | .fuelOut => .fuelOut
      | .object fields kind => substituteObjectType st env fuel fields kind
      | .reference inner =>
        match substitute st env fuel inner with
        | .ok inner => .ok (.reference inner)
        | .errMissing => .errMissing
        | .panic => .panic
        | .fuelOut => .fuelOut
      | .signature parameterTypes returnType arityMode =>
        match substituteList st env fuel parameterTypes with
        | .ok params =>
          match substitute st env fuel returnType with
          | .ok ret => .ok (.signature params ret arityMode)
          | .errMissing => .errMissing
          | .panic => .panic
          | .fuelOut => .fuelOut
        | .errMissing => .errMissing
        | .panic => .panic
        | .fuelOut => .fuelOut
      | .tuple elements =>
        match substituteList st env fuel elements with
        | .ok elems => .ok (.tuple elems)
        | .errMissing => .errMissing
        | .panic => .panic
        | .fuelOut => .fuelOut
      | .stub _ => .panic
      | .var substitutionId _ =>
        match lookupAssoc env substitutionId with
        | none => .panic
        | some bound =>
          if bound.isSameTypeVariableAs substitutionId then .ok ty
          else substitute st env fuel bound
      | .union _ => .panic
      | _ => .ok ty
termination_by fuel _ => (fuel, 0, 0)

/-- Model of `UnificationSubstitutionHelper::substitute_object_type` from
substitution.rs: for an `Open(id)` kind whose environment entry is a
closed object, or an open object with a different id, recurse on the
substitution (a non-object entry fails the `assert_extract!`); otherwise
substitute the fields in place and keep the kind. -/
def substituteObjectType (st : SymbolTable) (env : List (Nat × Ty)) (fuel : Nat)
    (fields : List (String × Ty)) (kind : ObjectKind) : SRes Ty :=
  match kind with
  | .open_ substitutionId =>
    (match lookupAssoc env substitutionId with
     | some substitution =>
       match substitution with
       | .object _ substitutionKind =>
         (match substitutionKind with
          | .open_ innerId =>
            if innerId ≠ substitutionId then substitute st env fuel substitution
            else
              match substituteFields st env fuel fields with
              | .ok fs => .ok (.object fs kind)
              | .errMissing => .errMissing
              | .panic => .panic
              | .fuelOut => .fuelOut
          | .closed => substitute st env fuel substitution)
       | _ => .panic
     | none =>
       match substituteFields st env fuel fields with
       | .ok fs => .ok (.object fs kind)
       | .errMissing => .errMissing
       | .panic => .panic
       | .fuelOut => .fuelOut)
  | .closed =>
    match substituteFields st env fuel fields with
    | .ok fs => .ok (.object fs kind)
    | .errMissing => .errMissing
    | .panic => .panic
    | .fuelOut => .fuelOut
termination_by (fuel, 4, 0)

/-- Substitution mapped over a parameter or element list, in order. -/
def substituteList (st : SymbolTable) (env : List (Nat × Ty)) (fuel : Nat) :
    List Ty → SRes (List Ty)
  | [] => .ok []
  | t :: ts =>
    match substitute st env fuel t with
    | .ok head =>
      match substituteList st env fuel ts with
      | .ok rest => .ok (head :: rest)
      | .errMissing => .errMissing
      | .panic => .panic
      | .fuelOut => .fuelOut
    | .errMissing => .errMissing
    | .panic => .panic
    | .fuelOut => .fuelOut
termination_by ts => (fuel, 2, ts.length)

/-- Substitution mapped over object fields, preserving keys and key
order. -/
def substituteFields (st : SymbolTable) (env : List (Nat × Ty)) (fuel : Nat) :
    List (String × Ty) → SRes (List (String × Ty))
  | [] => .ok []
  | (name, t) :: fs =>
    match substitute st env fuel t with
    | .ok head =>
      match substituteFields st env fuel fs with
      | .ok rest => .ok ((name, head) :: rest)
      | .errMissing => .errMissing
      | .panic => .panic
      | .fuelOut => .fuelOut
    | .errMissing => .errMissing
    | .panic => .panic
    | .fuelOut => .fuelOut
termination_by fs => (fuel, 2, fs.length)
end

/-! ## The resolution helper (resolution.rs) -/

/-- Outcome of `BaseResolutionHelper::resolve` and its helpers: `ok` a
resolved value, `errMissingEntry` the
`TypeResolutionError::StubTypeMissingSymbolTableEntry`, `panic` the
`unreachable!` in `resolve_within_subtree`, a concreteness-check panic,
or the failed `assert!`; `fuelOut` marks non-termination within the
given fuel. -/
inductive RRes (α : Type)
  | ok (a : α)
  | errMissingEntry
  | panic
  | fuelOut

mutual
/-- Model of `BaseResolutionHelper::resolve` from resolution.rs: the
concrete fast path returns the type as-is; a stub is stripped and its
target resolved; any other non-concrete type is rebuilt with its subtree
resolved; the result is asserted to have a concrete immediate subtree.
The `UniverseStack` parameter is threaded but never interpreted by this
code (the spec, section 4.5, keeps it opaque), so it is omitted.
`strip_all_monomorphic_stub_layers` is not among the provided sources;
it is modelled from the spec (section 4.4, "strip all stub layers") by
the strip loop of types.rs. -/
def resolve (st : SymbolTable) : Nat → Ty → RRes Ty
  | 0, t =>
    match t.isImmediateSubtreeConcrete with
    | none => .panic
    | some true => .ok t
    | some false => .fuelOut
  | fuel + 1, t =>
    match t.isImmediateSubtreeConcrete with
    | none => .panic
    | some true => .ok t
    | some false =>
      match (match t with
             | .stub linkId => resolveStubType st fuel linkId
             | _ => resolveWithinSubtree st fuel t) with
      | .ok res =>
        match res.isImmediateSubtreeConcrete with
        | none => .panic
        | some false => .panic
        | some true => .ok res
      | .errMissingEntry => .errMissingEntry
      | .panic => .panic
      | .fuelOut => .fuelOut
termination_by fuel _ => (fuel, 0, 0)

/-- Model of `BaseResolutionHelper::resolve_within_subtree` from
resolution.rs: rebuild pointers, references, tuples, objects (key order
preserved) and signatures (return type resolved first, as in the source)
with resolved children; anything else hits the `unreachable!`. -/
def resolveWithinSubtree (st : SymbolTable) (fuel : Nat) : Ty → RRes Ty
  | .pointer pointee =>
    match resolve st fuel pointee with
    | .ok p => .ok (.pointer p)
    | .errMissingEntry => .errMissingEntry
    | .panic => .panic
    | .fuelOut => .fuelOut
  | .reference pointee =>
    match resolve st fuel pointee with
    | .ok p => .ok (.reference p)
    | .errMissingEntry => .errMissingEntry
    | .panic => .panic
    | .fuelOut => .fuelOut
  | .tuple elements =>
    match resolveList st fuel elements with
    | .ok es => .ok (.tuple es)
    | .errMissingEntry => .errMissingEntry
    | .panic => .panic
    | .fuelOut => .fuelOut
  | .object fields kind =>
    match resolveFields st fuel fields with
    | .ok fs => .ok (.object fs kind)
    | .errMissingEntry => .errMissingEntry
    | .panic => .panic
    | .fuelOut => .fuelOut
  | .signature parameterTypes returnType arityMode =>
    match resolve st fuel returnType with
    | .ok ret =>
      match resolveList st fuel parameterTypes with
      | .ok ps => .ok (.signature ps ret arityMode)
      | .errMissingEntry => .errMissingEntry
      | .panic => .panic
      | .fuelOut => .fuelOut
    | .errMissingEntry => .errMissingEntry
    | .panic => .panic
    | .fuelOut => .fuelOut
  | _ => .panic
termination_by (fuel, 2, 0)

/-- Model of `BaseResolutionHelper::resolve_stub_type` from resolution.rs:
strip all monomorphic stub layers (a dangling link becomes
`StubTypeMissingSymbolTableEntry`) and resolve the stripped target. -/
def resolveStubType (st : SymbolTable) (fuel : Nat) (linkId : Nat) : RRes Ty :=
  match stripAllStubLayers st fuel linkId with
  | .ok stripped => resolve st fuel stripped
  | .errMissing => .errMissingEntry
  | .panic => .panic
  | .fuelOut => .fuelOut
termination_by (fuel, 2, 0)

/-- Resolution mapped over a tuple-element or parameter list, in order. -/
def resolveList (st : SymbolTable) (fuel : Nat) : List Ty → RRes (List Ty)
  | [] => .ok []
  | t :: ts =>
    match resolve st fuel t with
    | .ok head =>
      match resolveList st fuel ts with
      | .ok rest => .ok (head :: rest)
      | .errMissingEntry => .errMissingEntry
      | .panic => .panic
      | .fuelOut => .fuelOut
    | .errMissingEntry => .errMissingEntry
    | .panic => .panic
    | .fuelOut => .fuelOut
termination_by ts => (fuel, 1, ts.length)

/-- Resolution mapped over object fields, preserving key order. -/
def resolveFields (st : SymbolTable) (fuel : Nat) :
    List (String × Ty) → RRes (List (String × Ty))
  | [] => .ok []
  | (name, t) :: fs =>
    match resolve st fuel t with
    | .ok head =>
      match resolveFields st fuel fs with
      | .ok rest => .ok ((name, head) :: rest)
      | .errMissingEntry => .errMissingEntry
      | .panic => .panic
      | .fuelOut => .fuelOut
    | .errMissingEntry => .errMissingEntry
    | .panic => .panic
    | .fuelOut => .fuelOut
termination_by fs => (fuel, 1, fs.length)
end

/-! ## Well-formedness of walker contexts

The invariants under which the visiting discipline runs: substitution
keys are pairwise distinct and strictly below the id counter. -/

/-- The keys of an association list. -/
def keysOf {α : Type} (l : List (Nat × α)) : List Nat := l.map Prod.fst

/-- A walker context is well formed when its substitution keys are
pairwise distinct and all strictly below the id counter (every key was
minted by the monotone id generator). -/
def CtxWF (c : Ctx) : Prop :=
  (keysOf c.substEnv).Nodup ∧ ∀ k ∈ keysOf c.substEnv, k < c.counter

/-- A produced `InferenceResultData` relative to the counter value `base`
its context inherited: the id count moved forward and every substitution
key is fresh, lying in `[base, idCount)`. -/
def DataWF (base : Nat) (d : Data) : Prop :=
  base ≤ d.idCount ∧ (keysOf d.substEnv).Nodup ∧
    ∀ k ∈ keysOf d.substEnv, base ≤ k ∧ k < d.idCount

/-- A context mid-walk, relative to the counter value `base` it started
from: well formed, counter at least `base`, and every substitution key at
least `base`. -/
def CtxRWF (base : Nat) (c : Ctx) : Prop :=
  CtxWF c ∧ base ≤ c.counter ∧ ∀ k ∈ keysOf c.substEnv, base ≤ k

/-- A walker outcome is `Good P` when it is not a failed assertion and
its payload, if any, satisfies `P`.  Panics and fuel exhaustion are
allowed: the merge-step assertions are the only outcomes ruled out. -/
def Good {α : Type} (P : α → Prop) : WRes α → Prop
  | .ok a => P a
  | .assertFail => False
  | .panic => True
  | .fuelOut => True

/-- The payload property maintained across walker steps that return a
value together with the updated context: the context is still well
formed relative to `base` and the counter has not moved backwards past
`startCounter`. -/
def ArmOK {α : Type} (base startCounter : Nat) (p : α × Ctx) : Prop :=
  CtxRWF base p.2 ∧ startCounter ≤ p.2.counter

mutual
/-- Written from the spec's words for claim C5: whether a type contains a
`Stub` or `Variable` anywhere in its full subtree, including signature
return types (which `get_inner_types` skips) and counting the type
itself. -/
def specContainsMeta : Ty → Bool
  | .stub _ => true
  | .var _ _ => true
  | .pointer pointee => specContainsMeta pointee
  | .reference pointee => specContainsMeta pointee
  | .tuple elements => specContainsMetaList elements
  | .object fields _ => specContainsMetaFields fields
  | .signature parameterTypes returnType _ =>
    specContainsMetaList parameterTypes || specContainsMeta returnType
  | _ => false

def specContainsMetaList : List Ty → Bool
  | [] => false
  | t :: ts => specContainsMeta t || specContainsMetaList ts

def specContainsMetaFields : List (String × Ty) → Bool
  | [] => false
  | (_, t) :: fs => specContainsMeta t || specContainsMetaFields fs
end

/-! ## Concrete inputs used by the witnesses and counterexamples -/

/-- An empty symbol table. -/
def stEmpty : SymbolTable := { links := [], registry := [] }

/-- An empty walker context with the counter at zero. -/
def ctx0 : Ctx := { constraints := [], substEnv := [], typeEnv := [], counter := 0 }

/-- A symbol table with a two-step cyclic type-definition chain:
link 0 resolves to a type definition whose body is a stub to link 1, and
vice versa (`type A = B; type B = A`). -/
def stCyclic : SymbolTable :=
  { links := [(0, .typeDef (.stub 1)), (1, .typeDef (.stub 0))], registry := [] }

/-- A symbol table with a single type definition: link 0 resolves to a
type definition whose body is `Bool`. -/
def stTypeDefBool : SymbolTable :=
  { links := [(0, .typeDef (.primitive .bool))], registry := [] }

/-- An object access `true.f` (base is a boolean literal), with distinct
pre-assigned type ids. -/
def objectAccessProg : Expr :=
  .objectAccess (.mk (.literal { kind := .bool true, typeId := 10 }) "f" 11 12)

/-- The int32 primitive type, used as a return hint in examples. -/
def i32 : Ty := .primitive (.integer .w32 true)

/-- A directly recursive function: no parameters, declared return `i32`,
body a bare reference back to the function itself through link 7. -/
def recFn : FunctionNode :=
  { signature :=
      { parameters := [], returnTypeHint := some i32, returnTypeId := 20,
        isVariadic := false },
    typeId := 21,
    body := .reference (.mk 7 22) }

/-- The symbol table binding link 7 to the recursive function item. -/
def stRec : SymbolTable :=
  { links := [(7, .item (.function recFn))], registry := [] }

/-- A variadic foreign function `printf(fmt: cstring, ...) -> i32`. -/
def printfFn : ForeignFunctionNode :=
  { signature :=
      { parameters := [{ typeHint := some (.primitive .cstring), typeId := 30 }],
        returnTypeHint := some i32, returnTypeId := 31, isVariadic := true },
    typeId := 32 }

/-- The symbol table binding link 8 to the variadic foreign function. -/
def stPrintf : SymbolTable :=
  { links := [(8, .item (.foreignFunction printfFn))], registry := [] }

/-- A call `printf(true)` through link 8: the callee expression is a
reference to the foreign function, one boolean literal argument. -/
def printfCall : CallSite :=
  .mk 8 (.reference (.mk 8 40)) [.mk (.literal { kind := .bool true, typeId := 41 }) 42] 43 44

/-- The full inference result of the walk over `printf(true)` from the
empty context (no type variables are created, so the substitution
environment stays empty and the counter stays 0). -/
def printfCallResult : Data :=
  { constraints := [.equality
      (.signature [.primitive .bool] i32 (.variadic 1))
      (.signature [.primitive .cstring] i32 (.variadic 1))],
    substEnv := [],
    typeEnv := [(40, .signature [.primitive .cstring] i32 (.variadic 1)),
                (32, .signature [.primitive .cstring] i32 (.variadic 1)),
                (30, .primitive .cstring),
                (44, .signature [.primitive .bool] i32 (.variadic 1)),
                (42, .primitive .bool), (41, .primitive .bool),
                (43, i32)],
    ty := i32,
    idCount := 0 }

/-- Projection of a walk outcome to its substitution environment. -/
def resultSubstEnv : WRes Data → Option (List (Nat × Ty))
  | .ok d => some d.substEnv
  | _ => none

/-- Projection of a walk outcome to its final id count. -/
def resultIdCount : WRes Data → Option Nat
  | .ok d => some d.idCount
  | _ => none

/-- Projection of a walk outcome to its type environment. -/
def resultTypeEnv : WRes Data → Option (List (Nat × Ty))
  | .ok d => some d.typeEnv
  | _ => none

/-! # Theorems -/

/-! ## Generic facts about the walker result monad -/

theorem WRes.bind_eq_ok {α β : Type} {r : WRes α} {f : α → WRes β} {b : β} :
    WRes.bind r f = .ok b ↔ ∃ a, r = .ok a ∧ f a = .ok b := by
  cases r <;> simp [WRes.bind]

theorem WRes.bind_def {α β : Type} (r : WRes α) (f : α → WRes β) :
    r >>= f = WRes.bind r f := rfl

theorem WRes.pure_def {α : Type} (a : α) : (pure a : WRes α) = .ok a := rfl

theorem WRes.bind_ne_assertFail {α β : Type} {r : WRes α} {f : α → WRes β}
    (h : r ≠ .assertFail) (hf : ∀ a, r = .ok a → f a ≠ .assertFail) :
    WRes.bind r f ≠ .assertFail := by
  cases r with
  | ok a => exact hf a rfl
  | panic => simp [WRes.bind]
  | assertFail => exact absurd rfl h
  | fuelOut => simp [WRes.bind]

/-! ## Association lists -/

theorem lookupAssoc_eq_none_iff {α : Type} (l : List (Nat × α)) (k : Nat) :
    lookupAssoc l k = none ↔ k ∉ keysOf l := by
  induction l with
  | nil => simp [lookupAssoc, keysOf]
  | cons hd tl ih =>
    obtain ⟨k', v⟩ := hd
    simp only [lookupAssoc, keysOf, List.map_cons, List.mem_cons]
    by_cases hk : k' = k
    · subst hk; simp
    · simp [hk, Ne.symm hk, ih, keysOf]

theorem containsKey_iff_mem {α : Type} (l : List (Nat × α)) (k : Nat) :
    containsKey l k = true ↔ k ∈ keysOf l := by
  rw [containsKey, Option.isSome_iff_ne_none, ne_eq, not_iff_comm,
    lookupAssoc_eq_none_iff]

theorem containsKey_eq_false_iff {α : Type} (l : List (Nat × α)) (k : Nat) :
    containsKey l k = false ↔ k ∉ keysOf l := by
  rw [← Bool.not_eq_true, not_iff_not]
  exact containsKey_iff_mem l k

/-! ## Stub stripping -/

theorem stripAllStubLayers_ok_not_stub {st : SymbolTable} :
    ∀ {fuel linkId t}, stripAllStubLayers st fuel linkId = .ok t →
      ∀ l, t ≠ .stub l := by
  intro fuel
  induction fuel with
  | zero => intro linkId t h; simp [stripAllStubLayers] at h
  | succ n ih =>
    intro linkId t h l
    rw [stripAllStubLayers] at h
    match hf : st.followLink linkId with
    | none => rw [hf] at h; exact StripRes.noConfusion h
    | some (.union _) => rw [hf] at h; exact StripRes.noConfusion h
    | some (.item _) => rw [hf] at h; exact StripRes.noConfusion h
    | some .nonItem => rw [hf] at h; exact StripRes.noConfusion h
    | some (.typeDef body) =>
      rw [hf] at h
      cases body with
      | stub nextLink => exact ih h l
      | union r => intro hc; subst hc; simp at h
      | range a b => intro hc; subst hc; simp at h
      | primitive p => intro hc; subst hc; simp at h
      | pointer p => intro hc; subst hc; simp at h
      | opaquePtr => intro hc; subst hc; simp at h
      | reference p => intro hc; subst hc; simp at h
      | tuple es => intro hc; subst hc; simp at h
      | object fs k => intro hc; subst hc; simp at h
      | signature ps r a => intro hc; subst hc; simp at h
      | var i nm => intro hc; subst hc; simp at h
      | unit => intro hc; subst hc; simp at h

theorem tryStrip_ok_not_stub {st : SymbolTable} {fuel : Nat} {ty t : Ty}
    (h : tryStripAllStubLayers st fuel ty = .ok t) : ∀ l, t ≠ .stub l := by
  match ty, h with
  | .stub linkId, h => exact stripAllStubLayers_ok_not_stub h
  | .union r, h => simp [tryStripAllStubLayers] at h; subst h; simp
  | .range a b, h => simp [tryStripAllStubLayers] at h; subst h; simp
  | .primitive p, h => simp [tryStripAllStubLayers] at h; subst h; simp
  | .pointer p, h => simp [tryStripAllStubLayers] at h; subst h; simp
  | .opaquePtr, h => simp [tryStripAllStubLayers] at h; subst h; simp
  | .reference p, h => simp [tryStripAllStubLayers] at h; subst h; simp
  | .tuple es, h => simp [tryStripAllStubLayers] at h; subst h; simp
  | .object fs k, h => simp [tryStripAllStubLayers] at h; subst h; simp
  | .signature ps r a, h => simp [tryStripAllStubLayers] at h; subst h; simp
  | .var i n, h => simp [tryStripAllStubLayers] at h; subst h; simp
  | .unit, h => simp [tryStripAllStubLayers] at h; subst h; simp

theorem tryStrip_of_not_stub {st : SymbolTable} {fuel : Nat} {ty : Ty}
    (h : ∀ l, ty ≠ .stub l) : tryStripAllStubLayers st fuel ty = .ok ty := by
  match ty with
  | .stub linkId => exact absurd rfl (h linkId)
  | .union r => rfl
  | .range a b => rfl
  | .primitive p => rfl
  | .pointer p => rfl
  | .opaquePtr => rfl
  | .reference p => rfl
  | .tuple es => rfl
  | .object fs k => rfl
  | .signature ps r a => rfl
  | .var i n => rfl
  | .unit => rfl

/-- On the cyclic chain `type A = B; type B = A`, the strip loop
alternates between the two links forever: stripping from either link
exhausts every fuel. -/
theorem stripCyclic_both (fuel : Nat) :
    stripAllStubLayers stCyclic fuel 0 = .fuelOut ∧
    stripAllStubLayers stCyclic fuel 1 = .fuelOut := by
  induction fuel with
  | zero => exact ⟨rfl, rfl⟩
  | succ n ih => exact ⟨ih.2, ih.1⟩

/-- C3.  `strip_all_stub_layers` follows links through the symbol table
and returns the first non-stub declaration body
(`stripAllStubLayers stTypeDefBool 1 0 = ok Bool`), fails with
`SymbolTableMissingEntry` on a dangling link, but on the cyclic chain
`type A = B; type B = A` the source's unbounded `loop` never returns:
for every fuel the model reports fuel exhaustion, so the source loops
forever instead of stopping with `CyclicType`.  This contradicts the
function's own doc comment ("If recursive types (via stub types) are
encountered, the function will fail with the corresponding error
variant") and the claim. -/
theorem C3_strip_cyclic_diverges :
    (∀ fuel, stripAllStubLayers stCyclic fuel 0 = StripRes.fuelOut) ∧
    stripAllStubLayers stTypeDefBool 1 0 = .ok (.primitive .bool) ∧
    stripAllStubLayers stEmpty 1 0 = .errMissing :=
  ⟨fun fuel => (stripCyclic_both fuel).1, rfl, rfl⟩

/-- C10.  `UnificationSubstitutionHelper::substitute` on a
`Type::Variable` whose substitution id has no entry at all in the
substitution environment panics (the guard
`map_or(true, ..)` passes for a missing entry, then the `.unwrap()`
fails); an id that is present is tolerated: a self-mapped id falls
through to the catch-all and the variable is returned unchanged. -/
theorem C10_substitute_missing_id_panics (st : SymbolTable) (env : List (Nat × Ty))
    (id : Nat) (name : String) (fuel : Nat) :
    (lookupAssoc env id = none →
      substitute st env (fuel + 1) (.var id name) = .panic) ∧
    (∀ name2, lookupAssoc env id = some (.var id name2) →
      substitute st env (fuel + 1) (.var id name) = .ok (.var id name)) := by
  constructor
  · intro h
    simp [substitute, tryStripAllStubLayers, h]
  · intro name2 h
    simp [substitute, tryStripAllStubLayers, h, Ty.isSameTypeVariableAs]

/-- Witness for C10: in an empty environment, substituting the variable
with id 0 panics; with the self-map registered it is returned
unchanged. -/
theorem C10_substitute_missing_id_panics_witness :
    substitute stEmpty [] 1 (.var 0 "v") = .panic ∧
    substitute stEmpty [(0, Ty.var 0 "v")] 1 (.var 0 "v") = .ok (.var 0 "v") :=
  ⟨(C10_substitute_missing_id_panics stEmpty [] 0 "v" 0).1 rfl,
   (C10_substitute_missing_id_panics stEmpty [(0, Ty.var 0 "v")] 0 "v" 0).2 "v" rfl⟩

/-- C5, counterexample.  `immediate_subtree` does NOT yield only the
direct child types: on `Pointer(Tuple[Bool])` the iterator yields the
tuple AND, one level deeper, the `Bool` element, while the direct
children (`get_inner_types`) are just the tuple. -/
theorem C5_counterexample :
    Ty.immediateSubtree (.pointer (.tuple [.primitive .bool]))
      = some [.tuple [.primitive .bool], .primitive .bool] ∧
    Ty.getInnerTypes (.pointer (.tuple [.primitive .bool]))
      = some [.tuple [.primitive .bool]] ∧
    ([Ty.tuple [.primitive .bool], .primitive .bool] : List Ty)
      ≠ [Ty.tuple [.primitive .bool]] := by
  refine ⟨?_, rfl, ?_⟩
  · simp [Ty.immediateSubtree, Ty.subtreeOfChild, Ty.subtreeOfChildren]
  · intro h
    simpa using congrArg List.length h

/-- C5, amended.  `immediate_subtree` performs a pre-order traversal of
the full structural subtree (excluding signature return types at every
level and never descending through stubs or variables, which have no
inner types), not only the direct children; nevertheless
`is_immediate_subtree_concrete` can hold for a type that still contains
a meta type at depth two, hidden inside a signature return type, since
the iterator skips return types. -/
theorem C5_amended_deep_traversal_and_return_escape :
    Ty.immediateSubtree (.pointer (.tuple [.primitive .bool]))
      = some [.tuple [.primitive .bool], .primitive .bool] ∧
    Ty.isImmediateSubtreeConcrete (.pointer (.signature [] (.var 0 "v") .fixed))
      = some true ∧
    specContainsMeta (.pointer (.signature [] (.var 0 "v") .fixed)) = true := by
  refine ⟨?_, rfl, rfl⟩
  simp [Ty.immediateSubtree, Ty.subtreeOfChild, Ty.subtreeOfChildren]

/-- C4.  Inferring a union variant instance never produces the union's
type: after the payload-shape match, the source hits an unconditional
`todo!()` and panics, for every symbol table, every fuel and every
context (shown here for a `String` payload, which reaches the `todo!()`
without visiting any sub-expression). -/
theorem C4_union_instance_always_panics (st : SymbolTable) (fuel : Nat) (parent : Ctx)
    (linkId : Nat) (s : String) :
    inferExpr st (fuel + 1) parent (.unionInstance (.mk linkId (.string s))) = .panic := by
  simp [inferExpr, inferExprVariant, inferUnionInstance, Ctx.inherit,
    Ctx.createTypeVariable, containsKey, lookupAssoc, Ctx.addConstraint,
    UnionInstance.value, WRes.bind_def, WRes.bind, WRes.pure_def]

/-- C1, counterexample.  On a reference whose link is dangling in an
empty symbol table, the walker does not record an `UnboundVariable` or
`MissingSymbolTableEntry` error and continue with a fresh type variable:
it panics (the `.unwrap()` in `impl Infer for ast::Reference`), aborting
the pass. -/
theorem C1_counterexample :
    inferExpr stEmpty 2 ctx0 (.reference (.mk 0 0)) = .panic := by
  simp [inferExpr, inferExprVariant, inferReference, visitTargetViaLink,
    Ctx.inherit, stEmpty, SymbolTable.followLink, lookupAssoc,
    WRes.bind_def, WRes.bind]

/-- C1, amended.  For every Reference node whose link cannot be followed
in the symbol table, or whose target is not an item, the walker panics
via the `.unwrap()` on `visit_target_via_link`'s error; no error is
accumulated and no fresh type variable is created, so the pass aborts. -/
theorem C1_reference_lookup_failure_panics (st : SymbolTable) (fuel : Nat)
    (parent : Ctx) (r : Reference)
    (h : st.followLink r.linkId = none ∨
      ∃ target, st.followLink r.linkId = some target ∧ target.intoItem = none) :
    inferExpr st (fuel + 1) parent (.reference r) = .panic := by
  rcases h with h | ⟨target, h1, h2⟩
  · simp [inferExpr, inferExprVariant, inferReference, visitTargetViaLink, h,
      WRes.bind_def, WRes.bind]
  · simp [inferExpr, inferExprVariant, inferReference, visitTargetViaLink, h1, h2,
      WRes.bind_def, WRes.bind]

/-- Witness for the amended C1: the dangling link 0 in the empty symbol
table makes the walker panic. -/
theorem C1_reference_lookup_failure_panics_witness :
    inferExpr stEmpty 1 ctx0 (.reference (.mk 0 0)) = .panic :=
  C1_reference_lookup_failure_panics stEmpty 0 ctx0 (.mk 0 0) (Or.inl rfl)

/-- C8.  Resolution is idempotent: whenever `resolve` returns a type, that
type's immediate subtree is fully concrete (the fast-path check or the
closing assertion guarantees it), so resolving it again — with any fuel —
takes the concrete fast path and returns it unchanged. -/
theorem C8_resolve_idempotent (st : SymbolTable) (fuel : Nat) (t r : Ty)
    (h : resolve st fuel t = .ok r) :
    r.isImmediateSubtreeConcrete = some true ∧ ∀ fuel2, resolve st fuel2 r = .ok r := by
  have hconc : r.isImmediateSubtreeConcrete = some true := by
    cases fuel with
    | zero =>
      simp only [resolve] at h
      split at h
      · exact absurd h (by simp)
      · next hc =>
        injection h with h
        subst h
        exact hc
      · exact absurd h (by simp)
    | succ f =>
      cases t <;>
        (simp only [resolve] at h
         split at h
         · exact absurd h (by simp)
         · next hc =>
           injection h with h
           subst h
           exact hc
         · split at h
           · split at h
             · exact absurd h (by simp)
             · exact absurd h (by simp)
             · next hc2 =>
               injection h with h
               subst h
               exact hc2
           · exact absurd h (by simp)
           · exact absurd h (by simp)
           · exact absurd h (by simp))
  refine ⟨hconc, fun fuel2 => ?_⟩
  cases fuel2 with
  | zero => simp [resolve, hconc]
  | succ f2 => cases r <;> simp [resolve, hconc]

/-- Full evaluation of the walk over `true.f` (an object access on a
boolean literal) from the empty context: the walk succeeds; two
substitution ids were generated (the final id count is 2): id 0 for the
member type variable, id 1 minted raw for the `Open` kind of the
row-polymorphism constraint. -/
theorem c2_walk_eval :
    inferExpr stEmpty 5 ctx0 objectAccessProg =
      .ok { constraints := [.equality
              (.object [("f", .var 0 "object_access.member")] (.open_ 1))
              (.primitive .bool)],
            substEnv := [(0, .var 0 "object_access.member")],
            typeEnv := [(12, .object [("f", .var 0 "object_access.member")] (.open_ 1)),
                        (10, .primitive .bool), (11, .var 0 "object_access.member")],
            ty := .var 0 "object_access.member",
            idCount := 2 } := by
  simp [inferExpr, inferExprVariant, inferObjectAccess, inferLiteral, constrainExpr,
    Ctx.inherit, Ctx.createTypeVariable, Ctx.insertTypeEnv, Ctx.nextSubstitutionId,
    Ctx.extend, mergeSubst, Ctx.finalize, tryStripAllStubLayers, containsKey,
    lookupAssoc, objectAccessProg, ctx0, stEmpty, WRes.bind_def, WRes.bind,
    WRes.pure_def, ObjectAccess.object, ObjectAccess.fieldName, ObjectAccess.typeId,
    ObjectAccess.baseExprTypeId, Ctx.addConstraint]

/-- C2, counterexample.  Immediately after the full walk over `true.f`,
the substitution id 1 — generated by the walker for the `Open` object
kind of the object-access constraint (the walker's id count reached 2) —
is NOT present in the substitution environment: `ObjectAccess` mints it
with a raw `next_substitution_id` and never registers a self-map. -/
theorem C2_counterexample :
    resultIdCount (inferExpr stEmpty 5 ctx0 objectAccessProg) = some 2 ∧
    (resultSubstEnv (inferExpr stEmpty 5 ctx0 objectAccessProg)).map
      (fun env => containsKey env 1) = some false := by
  rw [c2_walk_eval]
  exact ⟨rfl, rfl⟩

/-- C2, amended.  Immediately after a full walk, every substitution id
created through `create_type_variable` is present as a self-map
(`id ↦ Variable(id)`), but the ids minted directly for `Open` object
kinds in object-access inference are not registered: on the walk over
`true.f`, id 0 (the member variable) is self-mapped while id 1 (the
`Open` kind id, which appears in the emitted base object type) is
absent. -/
theorem C2_amended_open_ids_unregistered :
    (resultSubstEnv (inferExpr stEmpty 5 ctx0 objectAccessProg)).map
      (fun env => lookupAssoc env 0) = some (some (.var 0 "object_access.member")) ∧
    (resultTypeEnv (inferExpr stEmpty 5 ctx0 objectAccessProg)).map
      (fun env => lookupAssoc env 12)
      = some (some (.object [("f", .var 0 "object_access.member")] (.open_ 1))) ∧
    (resultSubstEnv (inferExpr stEmpty 5 ctx0 objectAccessProg)).map
      (fun env => containsKey env 1) = some false := by
  rw [c2_walk_eval]
  refine ⟨rfl, ?_, rfl⟩
  simp [resultTypeEnv, lookupAssoc]

/-- C7.  Inference of the directly recursive function `fn f(): i32 = f`
never terminates: although the signature is written to the type
environment at the function's type id before the body is constrained,
`Reference` inference never reads the type environment — it re-infers
the link target — so constraining the body re-enters the function's own
inference and the walk exhausts every fuel.  The claim's "recursive
reference finds the function's type already present" is contradicted. -/
theorem C7_recursive_function_inference_diverges :
    ∀ fuel parent, inferItem stRec fuel parent (.function recFn) = .fuelOut := by
  have h1 : recFn.signature.returnTypeHint = some i32 := rfl
  have h2 : recFn.signature.parameters = [] := rfl
  have h3 : recFn.body = .reference (.mk 7 22) := rfl
  have hlink : stRec.followLink 7 = some (.item (.function recFn)) := rfl
  intro fuel
  induction fuel using Nat.strong_induction_on with
  | _ fuel ih =>
    match fuel with
    | 0 => intro parent; simp [inferItem]
    | 1 =>
      intro parent
      simp [inferItem, inferFunction, createSignatureType, visitParameters,
        constrainExpr, inferExpr, Ctx.inherit, Ctx.insertTypeEnv, Ctx.extend,
        mergeSubst, h1, h2, h3,
        WRes.bind_def, WRes.bind, WRes.pure_def, containsKey, lookupAssoc]
    | (g+2) =>
      intro parent
      have hrec : ∀ c, inferItem stRec g c (.function recFn) = .fuelOut :=
        fun c => ih g (by omega) c
      simp [inferItem, inferFunction, createSignatureType, visitParameters,
        constrainExpr, inferExpr, inferExprVariant, inferReference,
        visitTargetViaLink, visitItem, Ctx.inherit, Ctx.insertTypeEnv, Ctx.extend,
        mergeSubst, h1, h2, h3, hlink, hrec, RegistryItem.intoItem, Reference.linkId,
        WRes.bind_def, WRes.bind, WRes.pure_def, containsKey, lookupAssoc]

/-- Inversion of a successful `extend`: the merged context appends the
child's constraints, prepends the child's type-environment entries (so
they shadow the parent's on lookup), and adopts the child's id count. -/
theorem extend_eq_ok_fields {c : Ctx} {d : Data} {c' : Ctx}
    (h : Ctx.extend c d = .ok c') :
    c'.constraints = c.constraints ++ d.constraints ∧
    c'.typeEnv = d.typeEnv ++ c.typeEnv ∧ c'.counter = d.idCount := by
  unfold Ctx.extend at h
  split at h
  · exact absurd h (by simp)
  · cases hm : mergeSubst c.substEnv d.substEnv with
    | ok m =>
      rw [hm] at h
      simp only [WRes.bind_def, WRes.bind] at h
      injection h with h
      subst h
      exact ⟨rfl, rfl, rfl⟩
    | panic => rw [hm] at h; simp [WRes.bind_def, WRes.bind] at h
    | assertFail => rw [hm] at h; simp [WRes.bind_def, WRes.bind] at h
    | fuelOut => rw [hm] at h; simp [WRes.bind_def, WRes.bind] at h

/-- A successful `visit` only grows the type environment and the
constraint list. -/
theorem visitExpr_mono {st : SymbolTable} {fuel : Nat} {c : Ctx} {e : Expr}
    {ty : Ty} {c' : Ctx} (h : visitExpr st fuel c e = .ok (ty, c')) :
    (∀ x, x ∈ c.typeEnv → x ∈ c'.typeEnv) ∧
    (∀ x, x ∈ c.constraints → x ∈ c'.constraints) := by
  unfold visitExpr at h
  rcases WRes.bind_eq_ok.mp h with ⟨data, hinf, h2⟩
  rcases WRes.bind_eq_ok.mp h2 with ⟨c2, hext, h3⟩
  injection h3 with h3
  injection h3 with h3a h3b
  obtain ⟨hc, ht, _⟩ := extend_eq_ok_fields hext
  subst h3b
  constructor
  · intro x hx; rw [ht]; exact List.mem_append_right _ hx
  · intro x hx; rw [hc]; exact List.mem_append_left _ hx

/-- A successful `constrain` pushes `Equality(expected, produced)` into
the constraint list and only grows both environments. -/
theorem constrainExpr_facts {st : SymbolTable} {fuel : Nat} {c : Ctx} {e : Expr}
    {expected ty : Ty} {c' : Ctx}
    (h : constrainExpr st fuel c e expected = .ok (ty, c')) :
    Constraint.equality expected ty ∈ c'.constraints ∧
    (∀ x, x ∈ c.typeEnv → x ∈ c'.typeEnv) ∧
    (∀ x, x ∈ c.constraints → x ∈ c'.constraints) := by
  unfold constrainExpr at h
  rcases WRes.bind_eq_ok.mp h with ⟨data, hinf, h2⟩
  rcases WRes.bind_eq_ok.mp h2 with ⟨c2, hext, h3⟩
  injection h3 with h3
  injection h3 with h3a h3b
  obtain ⟨hc, ht, _⟩ := extend_eq_ok_fields hext
  subst h3b
  subst h3a
  refine ⟨?_, ?_, ?_⟩
  · rw [hc]
    exact List.mem_append_left _ (by simp)
  · intro x hx; rw [ht]; exact List.mem_append_right _ hx
  · intro x hx; rw [hc]; exact List.mem_append_left _ (by simp [hx])

/-- A successful argument walk only grows the type environment and the
constraint list. -/
theorem visitArguments_mono {st : SymbolTable} {fuel : Nat} :
    ∀ {args : List CallSiteArg} {c : Ctx} {tys : List Ty} {c' : Ctx},
    visitArguments st fuel c args = .ok (tys, c') →
    (∀ x, x ∈ c.typeEnv → x ∈ c'.typeEnv) ∧
    (∀ x, x ∈ c.constraints → x ∈ c'.constraints) := by
  intro args
  induction args with
  | nil =>
    intro c tys c' h
    unfold visitArguments at h
    injection h with h
    injection h with h1 h2
    subst h2
    exact ⟨fun x hx => hx, fun x hx => hx⟩
  | cons a rest ih =>
    intro c tys c' h
    unfold visitArguments at h
    rcases WRes.bind_eq_ok.mp h with ⟨⟨ty1, c1⟩, hv, h2⟩
    rcases WRes.bind_eq_ok.mp h2 with ⟨⟨tys2, c3⟩, hrest, h3⟩
    injection h3 with h3
    injection h3 with h3a h3b
    subst h3b
    obtain ⟨hvt, hvc⟩ := visitExpr_mono hv
    obtain ⟨hrt, hrc⟩ := ih hrest
    refine ⟨fun x hx => hrt x ?_, fun x hx => hrc x (hvc x hx)⟩
    exact List.mem_cons_of_mem _ (hvt x hx)

/-- Inversion of a successful `finalize`: the data carries the context's
fields and the stub-stripped overall type. -/
theorem finalize_eq_ok {st : SymbolTable} {fuel : Nat} {c : Ctx} {ty : Ty} {d : Data}
    (h : Ctx.finalize st fuel c ty = .ok d) :
    d.constraints = c.constraints ∧ d.substEnv = c.substEnv ∧ d.typeEnv = c.typeEnv ∧
    d.idCount = c.counter ∧ tryStripAllStubLayers st fuel ty = .ok d.ty := by
  unfold Ctx.finalize at h
  split at h
  · next stripped hstrip =>
    injection h with h
    subst h
    exact ⟨rfl, rfl, rfl, rfl, hstrip⟩
  · exact absurd h (by simp)
  · exact absurd h (by simp)
  · exact absurd h (by simp)

/-- The synthesized arity is variadic exactly for a variadic foreign
function, mirroring `determine_arity_mode_for_callable`. -/
theorem determineArity_variadic_iff (callee : Callable) :
    (determineArityModeForCallable callee).isVariadic = true ↔
      ∃ ff, callee = Callable.foreignFunction ff ∧ ff.signature.isVariadic = true := by
  cases callee with
  | function f => simp [determineArityModeForCallable, ArityMode.isVariadic]
  | foreignFunction ff =>
    cases hv : ff.signature.isVariadic <;>
      simp [determineArityModeForCallable, hv, ArityMode.isVariadic]

/-- C6.  Every successful call-site inference strips the callee through
the symbol table, strips the stub layers off the callee's declared
return type, writes the call's type id to that return type, visits the
arguments and synthesizes
`Signature{parameter_types = visited argument types, return_type =
stripped declared return, arity = determine_arity_mode(callee)}`, writes
the callee type id to the synthesized signature, constrains the callee
expression to it, and makes the stripped return type the call's overall
type; the synthesized arity is `Variadic` exactly when the callee is a
variadic foreign function. -/
theorem C6_call_site_synthesis (st : SymbolTable) (fuel : Nat) (parent : Ctx)
    (cs : CallSite) (data : Data)
    (h : inferCallSite st fuel parent cs = .ok data) :
    ∃ callee declaredReturn calleeReturnType argumentTypes c1 calleeExprTy,
      stripCallee st cs = some callee ∧
      callee.getSignature.returnTypeHint = some declaredReturn ∧
      tryStripAllStubLayers st fuel declaredReturn = .ok calleeReturnType ∧
      visitArguments st fuel ((parent.inherit).insertTypeEnv cs.typeId calleeReturnType)
        cs.arguments = .ok (argumentTypes, c1) ∧
      data.ty = calleeReturnType ∧
      (cs.typeId, calleeReturnType) ∈ data.typeEnv ∧
      (cs.calleeTypeId, Ty.signature argumentTypes calleeReturnType
        (determineArityModeForCallable callee)) ∈ data.typeEnv ∧
      Constraint.equality
        (Ty.signature argumentTypes calleeReturnType (determineArityModeForCallable callee))
        calleeExprTy ∈ data.constraints ∧
      ((determineArityModeForCallable callee).isVariadic = true ↔
        ∃ ff, callee = Callable.foreignFunction ff ∧ ff.signature.isVariadic = true) := by
  unfold inferCallSite at h
  split at h
  · exact absurd h (by simp)
  · next callee hcallee =>
    dsimp only at h
    split at h
    · exact absurd h (by simp)
    · next declaredReturn hret =>
      split at h
      · exact absurd h (by simp)
      · exact absurd h (by simp)
      · exact absurd h (by simp)
      · next ret hstripok =>
        rcases WRes.bind_eq_ok.mp h with ⟨⟨argTys, c1⟩, hargs, h2⟩
        rcases WRes.bind_eq_ok.mp h2 with ⟨⟨cTy, c2⟩, hcons, h3⟩
        obtain ⟨hdc, _, hdt, _, hdty⟩ := finalize_eq_ok h3
        have hretns := tryStrip_ok_not_stub hstripok
        have hdty2 : data.ty = ret := by
          have hid := @tryStrip_of_not_stub st fuel ret hretns
          rw [hid] at hdty
          injection hdty with hh
          exact hh.symm
        obtain ⟨hcmem, hct, hcc⟩ := constrainExpr_facts hcons
        obtain ⟨hat, hac⟩ := visitArguments_mono hargs
        refine ⟨callee, declaredReturn, ret, argTys, c1, cTy,
          hcallee, hret, hstripok, hargs, hdty2, ?_, ?_, ?_,
          determineArity_variadic_iff callee⟩
        · rw [hdt]
          refine hct _ ?_
          exact List.mem_cons_of_mem _ (hat _ (by simp [Ctx.insertTypeEnv]))
        · rw [hdt]
          exact hct _ (by simp [Ctx.insertTypeEnv])
        · rw [hdc]
          exact hcmem

/-- Full evaluation of the walk over the call `printf(true)` to the
variadic foreign function: the synthesized callee signature takes the
visited argument type (`Bool`), returns the declared `i32`, with
`Variadic{1}` arity. -/
theorem c6_walk_eval :
    inferCallSite stPrintf 6 ctx0 printfCall = .ok printfCallResult := by
  simp [inferCallSite, inferExpr, inferExprVariant, inferReference, inferLiteral,
    inferItem, inferForeignFunction, foreignParameterPass, visitTargetViaLink,
    visitItem, visitExpr, visitArguments, constrainExpr, stripCallee,
    determineArityModeForCallable, Callable.getSignature, printfCallResult,
    Ctx.inherit, Ctx.insertTypeEnv, Ctx.extend, mergeSubst, Ctx.finalize,
    tryStripAllStubLayers, containsKey, lookupAssoc, stPrintf, printfFn, printfCall,
    ctx0, i32, SymbolTable.followLink, RegistryItem.intoItem,
    CallSite.calleeLinkId, CallSite.calleeExpr, CallSite.arguments, CallSite.typeId,
    CallSite.calleeTypeId, CallSiteArg.value, CallSiteArg.typeId, Reference.linkId,
    Reference.typeId, WRes.bind_def, WRes.bind, WRes.pure_def]

/-- Witness for C6: the synthesis properties instantiated on the
successful walk over `printf(true)`. -/
theorem C6_call_site_synthesis_witness :
    ∃ callee declaredReturn calleeReturnType argumentTypes c1 calleeExprTy,
      stripCallee stPrintf printfCall = some callee ∧
      callee.getSignature.returnTypeHint = some declaredReturn ∧
      tryStripAllStubLayers stPrintf 6 declaredReturn = .ok calleeReturnType ∧
      visitArguments stPrintf 6 ((ctx0.inherit).insertTypeEnv printfCall.typeId calleeReturnType)
        printfCall.arguments = .ok (argumentTypes, c1) ∧
      printfCallResult.ty = calleeReturnType ∧
      (printfCall.typeId, calleeReturnType) ∈ printfCallResult.typeEnv ∧
      (printfCall.calleeTypeId, Ty.signature argumentTypes calleeReturnType
        (determineArityModeForCallable callee)) ∈ printfCallResult.typeEnv ∧
      Constraint.equality
        (Ty.signature argumentTypes calleeReturnType (determineArityModeForCallable callee))
        calleeExprTy ∈ printfCallResult.constraints ∧
      ((determineArityModeForCallable callee).isVariadic = true ↔
        ∃ ff, callee = Callable.foreignFunction ff ∧ ff.signature.isVariadic = true) :=
  C6_call_site_synthesis stPrintf 6 ctx0 printfCall printfCallResult c6_walk_eval

/-- Witness for C8: resolving the stub for `type A = Bool` yields `Bool`,
whose immediate subtree is concrete, and re-resolving with zero fuel
returns it unchanged through the fast path. -/
theorem C8_resolve_idempotent_witness :
    Ty.isImmediateSubtreeConcrete (.primitive .bool) = some true ∧
    resolve stTypeDefBool 0 (.primitive .bool) = .ok (.primitive .bool) := by
  have h : resolve stTypeDefBool 2 (.stub 0) = .ok (.primitive .bool) := by
    simp [resolve, resolveStubType, stripAllStubLayers, stTypeDefBool,
      SymbolTable.followLink, lookupAssoc, Ty.isImmediateSubtreeConcrete, Ty.isAMeta]
  have hr := C8_resolve_idempotent stTypeDefBool 2 (.stub 0) (.primitive .bool) h
  exact ⟨hr.1, hr.2 0⟩

/-! ## The merge-step assertions never fail under the visiting
discipline (claim C9) -/

theorem Good.bind {α β : Type} {P : α → Prop} {Q : β → Prop} {r : WRes α}
    {f : α → WRes β} (hr : Good P r) (hf : ∀ a, P a → Good Q (f a)) :
    Good Q (r >>= f) := by
  cases r with
  | ok a => exact hf a hr
  | panic => exact trivial
  | assertFail => exact absurd hr (by simp [Good])
  | fuelOut => exact trivial

theorem Good.bindW {α β : Type} {P : α → Prop} {Q : β → Prop} {r : WRes α}
    {f : α → WRes β} (hr : Good P r) (hf : ∀ a, P a → Good Q (f a)) :
    Good Q (WRes.bind r f) := Good.bind hr hf

theorem Good.ne_assertFail {α : Type} {P : α → Prop} {r : WRes α}
    (hr : Good P r) : r ≠ .assertFail := by
  cases r <;> simp [Good] at hr ⊢

theorem Good.of_ok {α : Type} {P : α → Prop} {r : WRes α} {a : α}
    (hr : Good P r) (h : r = .ok a) : P a := by
  subst h
  exact hr

theorem ctxRWF_inherit (c : Ctx) : CtxRWF c.counter c.inherit := by
  refine ⟨⟨?_, ?_⟩, le_refl _, ?_⟩ <;> simp [Ctx.inherit, keysOf, CtxWF]

theorem ctxRWF_insertTypeEnv {base : Nat} {c : Ctx} (hc : CtxRWF base c)
    (k : Nat) (v : Ty) : CtxRWF base (c.insertTypeEnv k v) := hc

theorem ctxRWF_constraints {base : Nat} {c : Ctx} (hc : CtxRWF base c)
    (cl : List Constraint) : CtxRWF base { c with constraints := cl } := hc

theorem ctxRWF_addConstraint {base : Nat} {c : Ctx} (hc : CtxRWF base c)
    (a b : Ty) : CtxRWF base (c.addConstraint a b) := hc

theorem ctxRWF_nextSubstitutionId {base : Nat} {c : Ctx} (hc : CtxRWF base c) :
    CtxRWF base (c.nextSubstitutionId).2 := by
  obtain ⟨⟨hnd, hlt⟩, hbase, hge⟩ := hc
  exact ⟨⟨hnd, fun k hk => Nat.lt_succ_of_lt (hlt k hk)⟩,
    Nat.le_succ_of_le hbase, hge⟩

theorem mergeSubst_ok : ∀ (child parent : List (Nat × Ty)),
    (keysOf child).Nodup → (∀ k ∈ keysOf child, k ∉ keysOf parent) →
    ∃ m, mergeSubst parent child = .ok m ∧
      (∀ k, k ∈ keysOf m ↔ k ∈ keysOf parent ∨ k ∈ keysOf child) ∧
      ((keysOf parent).Nodup → (keysOf m).Nodup) := by
  intro child
  induction child with
  | nil =>
    intro parent _ _
    exact ⟨parent, rfl, by simp [keysOf], fun h => h⟩
  | cons hd tl ih =>
    obtain ⟨k, v⟩ := hd
    intro parent hnd hdis
    have hkmem : k ∈ keysOf ((k, v) :: tl) := by simp [keysOf]
    have hknotp : k ∉ keysOf parent := hdis k hkmem
    have hck : containsKey parent k = false := by
      rw [containsKey_eq_false_iff]
      exact hknotp
    have hnd2 : (k :: keysOf tl).Nodup := by simpa [keysOf] using hnd
    have hndk : k ∉ keysOf tl := (List.nodup_cons.mp hnd2).1
    have hnd' : (keysOf tl).Nodup := (List.nodup_cons.mp hnd2).2
    have hdis' : ∀ k2 ∈ keysOf tl, k2 ∉ keysOf ((k, v) :: parent) := by
      intro k2 hk2 hmem
      have hmem2 : k2 ∈ k :: keysOf parent := by simpa [keysOf] using hmem
      rcases List.mem_cons.mp hmem2 with hkk | hkk
      · subst hkk
        exact hndk hk2
      · refine hdis k2 ?_ hkk
        simp only [keysOf, List.map_cons]
        exact List.mem_cons_of_mem _ hk2
    obtain ⟨m, hm, hiff, hnodup⟩ := ih ((k, v) :: parent) hnd' hdis'
    refine ⟨m, ?_, ?_, ?_⟩
    · simp [mergeSubst, hck, hm]
    · intro k2
      rw [hiff k2]
      simp [keysOf]
      tauto
    · intro hp
      apply hnodup
      simp only [keysOf, List.map_cons, List.nodup_cons]
      exact ⟨hknotp, hp⟩

theorem extend_ok {base : Nat} {c : Ctx} {d : Data}
    (hc : CtxRWF base c) (hd : DataWF c.counter d) :
    ∃ c', Ctx.extend c d = .ok c' ∧ CtxRWF base c' ∧ c'.counter = d.idCount ∧
      c.counter ≤ c'.counter := by
  obtain ⟨⟨hnodup, hlt⟩, hbase, hge⟩ := hc
  obtain ⟨hcount, hdnodup, hdrange⟩ := hd
  have hdis : ∀ k ∈ keysOf d.substEnv, k ∉ keysOf c.substEnv := fun k hk hmem =>
    absurd (hlt k hmem) (not_lt.mpr (hdrange k hk).1)
  obtain ⟨m, hm, hiff, hmnodup⟩ := mergeSubst_ok d.substEnv c.substEnv hdnodup hdis
  refine ⟨⟨c.constraints ++ d.constraints, m, d.typeEnv ++ c.typeEnv, d.idCount⟩,
    ?_, ⟨⟨?_, ?_⟩, ?_, ?_⟩, rfl, hcount⟩
  · unfold Ctx.extend
    rw [if_neg (not_lt.mpr hcount), hm]
    simp [WRes.bind_def, WRes.bind]
  · exact hmnodup hnodup
  · intro k hk
    rcases (hiff k).mp hk with hk | hk
    · exact lt_of_lt_of_le (hlt k hk) hcount
    · exact (hdrange k hk).2
  · exact le_trans hbase hcount
  · intro k hk
    rcases (hiff k).mp hk with hk | hk
    · exact hge k hk
    · exact le_trans hbase (hdrange k hk).1

theorem createTypeVariable_ok {base : Nat} {c : Ctx} (hc : CtxRWF base c)
    (name : String) :
    ∃ c', Ctx.createTypeVariable c name = .ok (.var c.counter name, c') ∧
      CtxRWF base c' ∧ c'.counter = c.counter + 1 := by
  obtain ⟨⟨hnodup, hlt⟩, hbase, hge⟩ := hc
  have hck : containsKey c.substEnv c.counter = false := by
    rw [containsKey_eq_false_iff]
    intro hmem
    exact absurd (hlt _ hmem) (lt_irrefl _)
  refine ⟨{ c with
      substEnv := (c.counter, Ty.var c.counter name) :: c.substEnv,
      counter := c.counter + 1 }, ?_, ⟨⟨?_, ?_⟩, ?_, ?_⟩, rfl⟩
  · unfold Ctx.createTypeVariable
    simp [hck]
  · simp only [keysOf, List.map_cons, List.nodup_cons]
    refine ⟨?_, hnodup⟩
    intro hmem
    exact absurd (hlt _ hmem) (lt_irrefl _)
  · intro k hk
    simp only [keysOf, List.map_cons, List.mem_cons] at hk
    rcases hk with hk | hk
    · subst hk; exact Nat.lt_succ_self _
    · exact Nat.lt_succ_of_lt (hlt k hk)
  · exact Nat.le_succ_of_le hbase
  · intro k hk
    simp only [keysOf, List.map_cons, List.mem_cons] at hk
    rcases hk with hk | hk
    · subst hk; exact hbase
    · exact hge k hk

theorem good_finalize {base : Nat} {st : SymbolTable} {fuel : Nat} {c : Ctx}
    {ty : Ty} (hc : CtxRWF base c) :
    Good (DataWF base) (Ctx.finalize st fuel c ty) := by
  obtain ⟨⟨hnodup, hlt⟩, hbase, hge⟩ := hc
  unfold Ctx.finalize
  split
  · exact ⟨hbase, hnodup, fun k hk => ⟨hge k hk, hlt k hk⟩⟩
  · exact trivial
  · exact trivial
  · exact trivial

theorem good_inferParameterNode (st : SymbolTable) (fuel : Nat) (c : Ctx)
    (p : Parameter) : Good (DataWF c.counter) (inferParameterNode st fuel c p) := by
  unfold inferParameterNode Ctx.inferParameter
  cases hp : p.typeHint with
  | some hint =>
    simp only [hp]
    exact good_finalize (ctxRWF_insertTypeEnv (ctxRWF_inherit c) _ _)
  | none =>
    simp only [hp]
    obtain ⟨c', hcv, hrwf, _⟩ := createTypeVariable_ok (ctxRWF_inherit c) "parameter"
    rw [hcv]
    simp only [WRes.bind_def, WRes.bind]
    exact good_finalize (ctxRWF_insertTypeEnv hrwf _ _)

theorem good_foreignParameterPass : ∀ (ps : List Parameter) {base : Nat} (c : Ctx),
    CtxRWF base c → Good (ArmOK base c.counter) (foreignParameterPass c ps) := by
  intro ps
  induction ps with
  | nil => intro base c hc; exact ⟨hc, le_refl _⟩
  | cons p rest ih =>
    intro base c hc
    unfold foreignParameterPass
    cases hp : p.typeHint with
    | none => exact trivial
    | some hint =>
      refine Good.bind (ih _ (ctxRWF_insertTypeEnv hc _ _)) ?_
      rintro ⟨tys, c2⟩ ⟨hrwf2, hmono2⟩
      exact ⟨hrwf2, hmono2⟩

/-- The central invariant of the visiting discipline: at every fuel, the
walker dispatchers only ever merge freshly inherited contexts whose
substitution keys are new and whose counters moved forward, so no walk
outcome is a failed assertion, and a successful walk's data is well
formed relative to the parent's counter. -/
theorem walker_no_assert (st : SymbolTable) :
    ∀ fuel, (∀ (c : Ctx) (e : Expr), Good (DataWF c.counter) (inferExpr st fuel c e)) ∧
      (∀ (c : Ctx) (i : Item), Good (DataWF c.counter) (inferItem st fuel c i)) := by
  intro fuel
  induction fuel with
  | zero =>
    constructor
    · intro c e
      simp only [inferExpr]
      exact trivial
    · intro c i
      simp only [inferItem]
      exact trivial
  | succ fuel ih =>
    obtain ⟨ihE, ihI⟩ := ih
    have hVisitE : ∀ {base : Nat} (c : Ctx) (e : Expr), CtxRWF base c →
        Good (ArmOK base c.counter) (visitExpr st fuel c e) := by
      intro base c e hc
      unfold visitExpr
      refine Good.bind (ihE c e) ?_
      intro data hd
      obtain ⟨c', hext, hrwf, _, hmono⟩ := extend_ok hc hd
      rw [hext]
      exact ⟨hrwf, hmono⟩
    have hVisitI : ∀ {base : Nat} (c : Ctx) (i : Item), CtxRWF base c →
        Good (ArmOK base c.counter) (visitItem st fuel c i) := by
      intro base c i hc
      unfold visitItem
      refine Good.bind (ihI c i) ?_
      intro data hd
      obtain ⟨c', hext, hrwf, _, hmono⟩ := extend_ok hc hd
      rw [hext]
      exact ⟨hrwf, hmono⟩
    have hConstrain : ∀ {base : Nat} (c : Ctx) (e : Expr) (expected : Ty),
        CtxRWF base c →
        Good (ArmOK base c.counter) (constrainExpr st fuel c e expected) := by
      intro base c e expected hc
      unfold constrainExpr
      refine Good.bind (ihE c e) ?_
      intro data hd
      dsimp only
      obtain ⟨c', hext, hrwf, _, hmono⟩ :=
        extend_ok (ctxRWF_constraints hc
          (c.constraints ++ [Constraint.equality expected data.ty])) hd
      rw [hext]
      exact ⟨hrwf, hmono⟩
    have hTarget : ∀ {base : Nat} (c : Ctx) (linkId : Nat), CtxRWF base c →
        Good (ArmOK base c.counter) (visitTargetViaLink st fuel c linkId) := by
      intro base c linkId hc
      unfold visitTargetViaLink
      split
      · exact trivial
      · split
        · exact trivial
        · exact hVisitI c _ hc
    have hParams : ∀ (ps : List Parameter) {base : Nat} (c : Ctx), CtxRWF base c →
        Good (ArmOK base c.counter) (visitParameters st fuel c ps) := by
      intro ps
      induction ps with
      | nil =>
        intro base c hc
        simp only [visitParameters]
        exact ⟨hc, le_refl _⟩
      | cons p rest ihp =>
        intro base c hc
        unfold visitParameters
        refine Good.bind (good_inferParameterNode st fuel c p) ?_
        intro data hd
        obtain ⟨c1, hext, hrwf1, _, hmono1⟩ := extend_ok hc hd
        rw [hext]
        simp only [WRes.bind_def, WRes.bind]
        refine Good.bind (ihp c1 hrwf1) ?_
        rintro ⟨tys, c2⟩ ⟨hrwf2, hmono2⟩
        exact ⟨hrwf2, le_trans hmono1 hmono2⟩
    have hArgs : ∀ (args : List CallSiteArg) {base : Nat} (c : Ctx), CtxRWF base c →
        Good (ArmOK base c.counter) (visitArguments st fuel c args) := by
      intro args
      induction args with
      | nil =>
        intro base c hc
        simp only [visitArguments]
        exact ⟨hc, le_refl _⟩
      | cons a rest iha =>
        intro base c hc
        unfold visitArguments
        refine Good.bind (hVisitE c a.value hc) ?_
        rintro ⟨ty1, c1⟩ ⟨hrwf1, hmono1⟩
        refine Good.bind (iha _ (ctxRWF_insertTypeEnv hrwf1 _ _)) ?_
        rintro ⟨tys, c2⟩ ⟨hrwf2, hmono2⟩
        exact ⟨hrwf2, le_trans hmono1 hmono2⟩
    have hCreateSig : ∀ {base : Nat} (c : Ctx) (sig : AstSignature), CtxRWF base c →
        Good (ArmOK base c.counter) (createSignatureType st fuel c sig) := by
      intro base c sig hc
      unfold createSignatureType
      cases hr : sig.returnTypeHint with
      | none => exact trivial
      | some returnType =>
        refine Good.bind (hParams sig.parameters _ (ctxRWF_insertTypeEnv hc _ _)) ?_
        rintro ⟨ptys, c1⟩ ⟨hrwf1, hmono1⟩
        exact ⟨hrwf1, hmono1⟩
    have hLit : ∀ (p : Ctx) (l : Literal),
        Good (DataWF p.counter) (inferLiteral st fuel p l) := by
      intro p l
      unfold inferLiteral
      cases hk : l.kind with
      | bool b =>
        simp only [hk, WRes.pure_def, WRes.bind_def, WRes.bind]
        exact good_finalize (ctxRWF_insertTypeEnv (ctxRWF_inherit p) _ _)
      | string s =>
        simp only [hk, WRes.pure_def, WRes.bind_def, WRes.bind]
        exact good_finalize (ctxRWF_insertTypeEnv (ctxRWF_inherit p) _ _)
      | char ch =>
        simp only [hk, WRes.pure_def, WRes.bind_def, WRes.bind]
        exact good_finalize (ctxRWF_insertTypeEnv (ctxRWF_inherit p) _ _)
      | nullptr typeHint =>
        simp only [hk]
        cases typeHint with
        | some hint =>
          simp only [WRes.pure_def, WRes.bind_def, WRes.bind]
          exact good_finalize (ctxRWF_insertTypeEnv (ctxRWF_inherit p) _ _)
        | none =>
          obtain ⟨c', hcv, hrwf, _⟩ := createTypeVariable_ok (ctxRWF_inherit p) "nullptr"
          rw [hcv]
          simp only [WRes.pure_def, WRes.bind_def, WRes.bind]
          exact good_finalize (ctxRWF_insertTypeEnv hrwf _ _)
      | number bw isReal typeHint =>
        simp only [hk]
        cases typeHint with
        | some hint =>
          simp only [WRes.pure_def, WRes.bind_def, WRes.bind]
          exact good_finalize (ctxRWF_insertTypeEnv (ctxRWF_inherit p) _ _)
        | none =>
          simp only [WRes.pure_def, WRes.bind_def, WRes.bind]
          exact good_finalize (ctxRWF_insertTypeEnv (ctxRWF_inherit p) _ _)
    have hRef : ∀ (p : Ctx) (r : Reference),
        Good (DataWF p.counter) (inferReference st fuel p r) := by
      intro p r
      unfold inferReference
      refine Good.bind (hTarget p.inherit r.linkId (ctxRWF_inherit p)) ?_
      rintro ⟨ty, c1⟩ ⟨hrwf, _⟩
      exact good_finalize (ctxRWF_insertTypeEnv hrwf _ _)
    have hCall : ∀ (p : Ctx) (cs : CallSite),
        Good (DataWF p.counter) (inferCallSite st fuel p cs) := by
      intro p cs
      unfold inferCallSite
      split
      · exact trivial
      · dsimp only
        split
        · exact trivial
        · split
          · exact trivial
          · exact trivial
          · exact trivial
          · refine Good.bind
              (hArgs cs.arguments _ (ctxRWF_insertTypeEnv (ctxRWF_inherit p) _ _)) ?_
            rintro ⟨argTys, c1⟩ ⟨hrwf1, _⟩
            refine Good.bind (hConstrain _ _ _ (ctxRWF_insertTypeEnv hrwf1 _ _)) ?_
            rintro ⟨cTy, c2⟩ ⟨hrwf2, _⟩
            exact good_finalize hrwf2
    have hOA : ∀ (p : Ctx) (oa : ObjectAccess),
        Good (DataWF p.counter) (inferObjectAccess st fuel p oa) := by
      intro p oa
      unfold inferObjectAccess
      dsimp only
      obtain ⟨c', hcv, hrwf, _⟩ :=
        createTypeVariable_ok (ctxRWF_inherit p) "object_access.member"
      rw [hcv]
      simp only [WRes.bind_def, WRes.bind]
      refine Good.bind (hConstrain _ _ _
        (ctxRWF_nextSubstitutionId (ctxRWF_insertTypeEnv hrwf _ _))) ?_
      rintro ⟨t2, c2⟩ ⟨hrwf2, _⟩
      exact good_finalize (ctxRWF_insertTypeEnv hrwf2 _ _)
    have hUI : ∀ (p : Ctx) (ui : UnionInstance),
        Good (DataWF p.counter) (inferUnionInstance st fuel p ui) := by
      intro p ui
      unfold inferUnionInstance
      dsimp only
      obtain ⟨c', hcv, hrwf, _⟩ :=
        createTypeVariable_ok (ctxRWF_inherit p) "union_instance.value"
      rw [hcv]
      simp only [WRes.bind_def, WRes.bind]
      cases hv : ui.value with
      | value v =>
        simp only [hv]
        exact Good.bind (hConstrain _ _ _ hrwf) (fun a _ => trivial)
      | string s =>
        simp only [hv]
        exact trivial
      | singleton =>
        simp only [hv]
        exact trivial
    have hFun : ∀ (p : Ctx) (f : FunctionNode),
        Good (DataWF p.counter) (inferFunction st fuel p f) := by
      intro p f
      unfold inferFunction
      refine Good.bind (hCreateSig p.inherit f.signature (ctxRWF_inherit p)) ?_
      rintro ⟨⟨ptys, ret⟩, c1⟩ ⟨hrwf1, _⟩
      refine Good.bind (hConstrain _ _ _ (ctxRWF_insertTypeEnv hrwf1 _ _)) ?_
      rintro ⟨t2, c2⟩ ⟨hrwf2, _⟩
      exact good_finalize hrwf2
    have hFF : ∀ (p : Ctx) (ff : ForeignFunctionNode),
        Good (DataWF p.counter) (inferForeignFunction st fuel p ff) := by
      intro p ff
      unfold inferForeignFunction
      refine Good.bind
        (good_foreignParameterPass ff.signature.parameters p.inherit (ctxRWF_inherit p)) ?_
      rintro ⟨ptys, c1⟩ ⟨hrwf1, _⟩
      cases hr : ff.signature.returnTypeHint with
      | none => exact trivial
      | some returnType =>
        simp only [hr]
        exact good_finalize (ctxRWF_insertTypeEnv hrwf1 _ _)
    have hVariant : ∀ (c : Ctx) (e : Expr),
        Good (DataWF c.counter) (inferExprVariant st fuel c e) := by
      intro c e
      cases e with
      | literal l => simp only [inferExprVariant]; exact hLit c l
      | reference r => simp only [inferExprVariant]; exact hRef c r
      | callSite cs => simp only [inferExprVariant]; exact hCall c cs
      | objectAccess oa => simp only [inferExprVariant]; exact hOA c oa
      | unionInstance ui => simp only [inferExprVariant]; exact hUI c ui
    constructor
    · intro c e
      simp only [inferExpr]
      refine Good.bind (hVariant c.inherit e) ?_
      intro data hd
      obtain ⟨c', hext, hrwf, _, _⟩ := extend_ok (ctxRWF_inherit c) hd
      rw [hext]
      exact good_finalize hrwf
    · intro c i
      cases i with
      | function f =>
        simp only [inferItem]
        refine Good.bind (hFun c.inherit f) ?_
        intro data hd
        obtain ⟨c', hext, hrwf, _, _⟩ := extend_ok (ctxRWF_inherit c) hd
        rw [hext]
        exact good_finalize hrwf
      | foreignFunction ff =>
        simp only [inferItem]
        refine Good.bind (hFF c.inherit ff) ?_
        intro data hd
        obtain ⟨c', hext, hrwf, _, _⟩ := extend_ok (ctxRWF_inherit c) hd
        rw [hext]
        exact good_finalize hrwf
      | parameter p =>
        simp only [inferItem]
        refine Good.bind (good_inferParameterNode st fuel c.inherit p) ?_
        intro data hd
        obtain ⟨c', hext, hrwf, _, _⟩ := extend_ok (ctxRWF_inherit c) hd
        rw [hext]
        exact good_finalize hrwf

/-- C9.  For every well-formed context (substitution keys distinct and
below the id counter — the state of any context produced by the visiting
discipline), no walk through `visit`, `constrain`, or the
`transient`-based dispatchers ever fails the merge-step assertions of
`InferenceContext::extend` (child id count not older; no substitution-id
aliasing): whenever a child context created by `inherit` is merged back,
its id count is at least the parent's and its substitution ids are new
to the parent. -/
theorem C9_merge_assertions_never_fail (st : SymbolTable) (fuel : Nat) (c : Ctx)
    (hWF : CtxWF c) :
    (∀ e, visitExpr st fuel c e ≠ .assertFail) ∧
    (∀ e expected, constrainExpr st fuel c e expected ≠ .assertFail) ∧
    (∀ i, visitItem st fuel c i ≠ .assertFail) ∧
    (∀ e, inferExpr st fuel c e ≠ .assertFail) ∧
    (∀ i, inferItem st fuel c i ≠ .assertFail) := by
  have hrwf : CtxRWF 0 c := ⟨hWF, Nat.zero_le _, fun k _ => Nat.zero_le _⟩
  obtain ⟨hE, hI⟩ := walker_no_assert st fuel
  refine ⟨?_, ?_, ?_, fun e => (hE c e).ne_assertFail, fun i => (hI c i).ne_assertFail⟩
  · intro e
    have hgood : Good (ArmOK 0 c.counter) (visitExpr st fuel c e) := by
      unfold visitExpr
      refine Good.bind (hE c e) ?_
      intro data hd
      obtain ⟨c', hext, hrwf', _, hmono⟩ := extend_ok hrwf hd
      rw [hext]
      exact ⟨hrwf', hmono⟩
    exact hgood.ne_assertFail
  · intro e expected
    have hgood : Good (ArmOK 0 c.counter) (constrainExpr st fuel c e expected) := by
      unfold constrainExpr
      refine Good.bind (hE c e) ?_
      intro data hd
      dsimp only
      obtain ⟨c', hext, hrwf', _, hmono⟩ :=
        extend_ok (ctxRWF_constraints hrwf
          (c.constraints ++ [Constraint.equality expected data.ty])) hd
      rw [hext]
      exact ⟨hrwf', hmono⟩
    exact hgood.ne_assertFail
  · intro i
    have hgood : Good (ArmOK 0 c.counter) (visitItem st fuel c i) := by
      unfold visitItem
      refine Good.bind (hI c i) ?_
      intro data hd
      obtain ⟨c', hext, hrwf', _, hmono⟩ := extend_ok hrwf hd
      rw [hext]
      exact ⟨hrwf', hmono⟩
    exact hgood.ne_assertFail

/-- Witness for C9: the empty starting context is well formed, and the
walk over `printf(true)` through `visit` raises no assertion. -/
theorem C9_merge_assertions_never_fail_witness :
    CtxWF ctx0 ∧ visitExpr stPrintf 6 ctx0 (.callSite printfCall) ≠ .assertFail := by
  have hwf : CtxWF ctx0 := by
    constructor
    · simp [ctx0, keysOf]
    · intro k hk
      simp [ctx0, keysOf] at hk
  exact ⟨hwf,
    (C9_merge_assertions_never_fail stPrintf 6 ctx0 hwf).1 (.callSite printfCall)⟩

end Tails
